import Mathlib

/-!
Verification of the PEAX 2D bin-packing engine against its specification.

The Python source is shallowly embedded: machine integers become `Int`,
Python float scores become exact rationals `ℚ` (the source's `1e-10`
epsilon guard becomes `1/10^10`), in-place mutation of items, shelves,
bins and per-bin engine state becomes explicit state passing, and the
per-bin dictionaries keyed by uuid strings become maps `Nat → Option σ`
keyed by a process-unique counter.  Function and field names follow the
source (`items_type.py`, `algorithm_types.py`, `packing_algorithm.py`,
`shelf.py`, `skyline.py`, `guillotine.py`, `maxrects.py`, `bins.py`).
-/

namespace PEAX

/-- `Item` from items_type.py: an axis-aligned rectangle with integer
dimensions; `x`, `y` are the bottom-left corner once placed (sentinel -1
before placement); `rotate` swaps the dimensions and toggles `rotated`. -/
structure Item where
  width : Int
  height : Int
  rotated : Bool
  x : Int
  y : Int
  id : String
deriving DecidableEq, Repr

/-- `Item.area` property. -/
def Item.area (i : Item) : Int := i.width * i.height

/-- `Item.rotate`: swap width/height and toggle the `rotated` flag. -/
def Item.rotate (i : Item) : Item :=
  { i with width := i.height, height := i.width, rotated := !i.rotated }

/-- `Bin` from items_type.py.  The uuid4 identifier is modelled as a
process-unique natural number issued by the manager's counter. -/
structure Bin where
  width : Int
  height : Int
  items : List Item
  id : Nat
deriving DecidableEq, Repr

/-- `Bin.area` property. -/
def Bin.area (b : Bin) : Int := b.width * b.height

/-- `Bin.remaining_area` property. -/
def Bin.remaining_area (b : Bin) : Int := b.area - (b.items.map Item.area).sum

/-- `BinPackingAlgorithmType` from algorithm_types.py. -/
inductive BinPackingAlgorithmType where
  | shelf
  | skyline
  | maxrects
  | guillotine
deriving DecidableEq, Repr

/-- `BinHeuristicType` from algorithm_types.py. -/
inductive BinHeuristicType where
  | next_fit
  | first_fit
  | best_area_fit
  | worst_area_fit
  | best_width_fit
  | worst_width_fit
  | best_height_fit
  | worst_height_fit
deriving DecidableEq, Repr

/-- `SortStrategy` from algorithm_types.py: `NONE` plus 14 key functions. -/
inductive SortStrategy where
  | NONE
  | AREA_DESC
  | AREA_ASC
  | WIDTH_DESC
  | WIDTH_ASC
  | HEIGHT_DESC
  | HEIGHT_ASC
  | PERIMETER_DESC
  | PERIMETER_ASC
  | SHORTER_SIDE_DESC
  | SHORTER_SIDE_ASC
  | LONGER_SIDE_DESC
  | LONGER_SIDE_ASC
  | SIDE_DIFF_DESC
  | SIDE_DIFF_ASC
deriving DecidableEq, Repr

/-- The key function stored in each non-`NONE` `SortStrategy` enum value
(`partial(lambda item: ...)` in the source); `NONE` stores no key and is
never used as one (`sort_items` tests for it first). -/
def SortStrategy.key : SortStrategy → Item → Int
  | .NONE, _ => 0
  | .AREA_DESC, item => -item.area
  | .AREA_ASC, item => item.area
  | .WIDTH_DESC, item => -item.width
  | .WIDTH_ASC, item => item.width
  | .HEIGHT_DESC, item => -item.height
  | .HEIGHT_ASC, item => item.height
  | .PERIMETER_DESC, item => -(2 * (item.width + item.height))
  | .PERIMETER_ASC, item => 2 * (item.width + item.height)
  | .SHORTER_SIDE_DESC, item => -(min item.width item.height)
  | .SHORTER_SIDE_ASC, item => min item.width item.height
  | .LONGER_SIDE_DESC, item => -(max item.width item.height)
  | .LONGER_SIDE_ASC, item => max item.width item.height
  | .SIDE_DIFF_DESC, item => -|item.width - item.height|
  | .SIDE_DIFF_ASC, item => |item.width - item.height|

/-- Stable insertion of an item into a key-sorted list: the new element
goes before the first element of strictly larger-or-equal key only when
its key is strictly smaller, preserving the original order of equal keys
exactly as Python's stable `sorted` does. -/
def sortedInsert (key : Item → Int) (a : Item) : List Item → List Item
  | [] => [a]
  | b :: l => if key a ≤ key b then a :: b :: l else b :: sortedInsert key a l

/-- Stable sort by an integer key; extensionally Python's `sorted(items,
key=...)`, which is specified as a stable sort. -/
def stableSortByKey (key : Item → Int) : List Item → List Item
  | [] => []
  | a :: l => sortedInsert key a (stableSortByKey key l)

/-- The shared epsilon guard `1e-10` of the scoring code, as an exact
rational. -/
def epsilon : ℚ := 1 / 10 ^ 10

/-- `PackingAlgorithm.check_item_fit` from packing_algorithm.py: fit of an
item against a whole bin, with the rotated fit allowed when the algorithm
was constructed with `rotation=True`. -/
def PackingAlgorithm.check_item_fit (rotation : Bool) (bin : Bin) (item : Item) :
    Bool × Bool :=
  let fits_without := decide (item.width ≤ bin.width) && decide (item.height ≤ bin.height)
  let needs_rot := rotation && decide (item.height ≤ bin.width) && decide (item.width ≤ bin.height)
  if fits_without then (true, false)
  else if needs_rot then (true, true)
  else (false, false)

/-- `Shelf` dataclass from shelf.py. -/
structure Shelf where
  height : Int
  width : Int
  available_width : Int
  vertical_offset : Int
  items : List Item
  rotation : Bool
deriving DecidableEq, Repr

/-- `Shelf.area` property: area of the still-available slot. -/
def Shelf.area (s : Shelf) : Int := s.available_width * s.height

/-- `Shelf.check_item_fit`: `(fits, needs_rotation)` against the shelf's
available width and fixed height. -/
def Shelf.check_item_fit (s : Shelf) (item : Item) : Bool × Bool :=
  let fits_without := decide (item.width ≤ s.available_width) && decide (item.height ≤ s.height)
  let needs_rot := s.rotation && decide (item.height ≤ s.available_width) && decide (item.width ≤ s.height)
  if fits_without then (true, false)
  else if needs_rot then (true, true)
  else (false, false)

/-- `Shelf.insert_item`; in-place mutation of the shelf and the item is
modelled by returning both next to the success flag. -/
def Shelf.insert_item (s : Shelf) (item : Item) : Bool × Shelf × Item :=
  match s.check_item_fit item with
  | (true, needs_rot) =>
    let item := if needs_rot then item.rotate else item
    let item := { item with x := s.width - s.available_width, y := s.vertical_offset }
    (true,
     { s with items := s.items ++ [item], available_width := s.available_width - item.width },
     item)
  | (false, _) => (false, s, item)

/-- The per-bin value stored in `ShelfAlgorithm.bin_shelves` (the source
keeps a dict with keys 'shelves' and 'available_height'). -/
structure ShelfBinState where
  shelves : List Shelf
  available_height : Int
deriving DecidableEq, Repr

/-- `ShelfAlgorithm.initialize_bin`. -/
def ShelfAlgorithm.initialize_bin (bin : Bin) : ShelfBinState :=
  { shelves := [], available_height := bin.height }

/-- `ShelfAlgorithm.can_create_shelf`. -/
def ShelfAlgorithm.can_create_shelf (st : ShelfBinState) (item : Item) : Bool :=
  decide (item.height ≤ st.available_height)

/-- `ShelfAlgorithm.create_shelf`: on success the new shelf is appended
and the available height shrinks by the shelf height. -/
def ShelfAlgorithm.create_shelf (rotation : Bool) (bin : Bin) (st : ShelfBinState)
    (item : Item) : Option Shelf × ShelfBinState :=
  if ShelfAlgorithm.can_create_shelf st item then
    let vertical_offset := bin.height - st.available_height
    let shelf : Shelf :=
      { width := bin.width, height := item.height, available_width := bin.width,
        vertical_offset := vertical_offset, items := [], rotation := rotation }
    (some shelf,
     { shelves := st.shelves ++ [shelf],
       available_height := st.available_height - shelf.height })
  else (none, st)

/-- `ShelfAlgorithm.evaluate_shelf`: score a shelf under the configured
heuristic.  The item is temporarily rotated to evaluate a rotated fit and
restored in the `finally` block; the returned pair carries the item state
seen by the caller. -/
def ShelfAlgorithm.evaluate_shelf (heuristic : BinHeuristicType) (shelf : Shelf)
    (item : Item) : ℚ × Item :=
  match shelf.check_item_fit item with
  | (false, _) => (0, item)
  | (true, needs_rot) =>
    let item := if needs_rot then item.rotate else item
    let area_occupied : ℚ :=
      (((shelf.available_width - item.width) * shelf.height : Int) : ℚ) /
        ((shelf.area : Int) + epsilon)
    let width_occupied : ℚ :=
      ((shelf.available_width - item.width : Int) : ℚ) / ((shelf.width : Int) + epsilon)
    let height_occupied : ℚ :=
      ((shelf.height - item.height : Int) : ℚ) / ((shelf.height : Int) + epsilon)
    let score : ℚ :=
      match heuristic with
      | .next_fit | .first_fit => 1
      | .best_area_fit => 1 - area_occupied
      | .worst_area_fit => area_occupied
      | .best_width_fit => 1 - width_occupied
      | .worst_width_fit => width_occupied
      | .best_height_fit => 1 - height_occupied
      | .worst_height_fit => height_occupied
    (score, if needs_rot then item.rotate else item)

/-- The loop of `ShelfAlgorithm.find_best_shelf` over existing shelves,
tracking the index of the best-scoring shelf and short-circuiting on a
perfect score; the item threads through the tentative rotations of
`evaluate_shelf` exactly as the shared Python object does. -/
def ShelfAlgorithm.search_shelves (heuristic : BinHeuristicType) :
    List Shelf → Item → Nat → Option Nat → ℚ → Option Nat
  | [], _, _, best, _ => best
  | shelf :: rest, item, i, best, best_score =>
    let (score, item) := ShelfAlgorithm.evaluate_shelf heuristic shelf item
    let (best, best_score) :=
      if best_score < score then (some i, score) else (best, best_score)
    if best_score = 1 then best
    else ShelfAlgorithm.search_shelves heuristic rest item (i + 1) best best_score

/-- `ShelfAlgorithm.find_best_shelf`: the chosen shelf is identified by
its index into the (possibly extended) shelf list of the returned state;
`none` when no shelf fits and none can be created. -/
def ShelfAlgorithm.find_best_shelf (rotation : Bool) (heuristic : BinHeuristicType)
    (bin : Bin) (st : ShelfBinState) (item : Item) : Option Nat × ShelfBinState :=
  match ShelfAlgorithm.search_shelves heuristic st.shelves item 0 none 0 with
  | some i => (some i, st)
  | none =>
    match ShelfAlgorithm.create_shelf rotation bin st item with
    | (some _, st') => (some (st'.shelves.length - 1), st')
    | (none, st') => (none, st')

/-- Pointwise update of a per-bin state map. -/
def mapSet {σ : Type} (m : Nat → Option σ) (k : Nat) (v : σ) : Nat → Option σ :=
  fun k' => if k' = k then some v else m k'

/-- `ShelfAlgorithm.pack_item`.  A bin absent from `bin_shelves` is
initialized first; a failed insertion still keeps a shelf that
`find_best_shelf` created on the way, because the source mutates the
stored state in place.  Returns the success flag, the updated state map,
the updated bin and the (possibly rotated and placed) item. -/
def ShelfAlgorithm.pack_item (rotation : Bool) (heuristic : BinHeuristicType)
    (bin_shelves : Nat → Option ShelfBinState) (bin : Bin) (item : Item) :
    Bool × (Nat → Option ShelfBinState) × Bin × Item :=
  let st := match bin_shelves bin.id with
    | some st => st
    | none => ShelfAlgorithm.initialize_bin bin
  match ShelfAlgorithm.find_best_shelf rotation heuristic bin st item with
  | (none, st') => (false, mapSet bin_shelves bin.id st', bin, item)
  | (some i, st') =>
    -- the returned index is always in range; the default is never read
    let shelf := st'.shelves.getD i ⟨0, 0, 0, 0, [], false⟩
    match shelf.insert_item item with
    | (false, _, _) => (false, mapSet bin_shelves bin.id st', bin, item)
    | (true, shelf', item') =>
      (true,
       mapSet bin_shelves bin.id { st' with shelves := st'.shelves.set i shelf' },
       { bin with items := bin.items ++ [item'] },
       item')

/-- The loop of `ShelfAlgorithm.evaluate_bin` over the bin's shelves. -/
def ShelfAlgorithm.eval_shelves (heuristic : BinHeuristicType) :
    List Shelf → Item → ℚ → ℚ × Item
  | [], item, best_score => (best_score, item)
  | shelf :: rest, item, best_score =>
    let (score, item) := ShelfAlgorithm.evaluate_shelf heuristic shelf item
    let best_score := if best_score < score then score else best_score
    if best_score = 1 then (best_score, item)
    else ShelfAlgorithm.eval_shelves heuristic rest item best_score

/-- `ShelfAlgorithm.evaluate_bin`: score a whole bin; when no existing
shelf scores positively, a hypothetical new shelf is evaluated so an
empty bin with enough available height still gets a positive score.  The
manager only evaluates bins that `pack_item` has initialized, so the
lookup default (equal to the freshly initialized state) models the dict
access of the source. -/
def ShelfAlgorithm.evaluate_bin (rotation : Bool) (heuristic : BinHeuristicType)
    (bin_shelves : Nat → Option ShelfBinState) (bin : Bin) (item : Item) : ℚ × Item :=
  match PackingAlgorithm.check_item_fit rotation bin item with
  | (false, _) => (0, item)
  | (true, _) =>
    let st := (bin_shelves bin.id).getD (ShelfAlgorithm.initialize_bin bin)
    let (best_score, item) := ShelfAlgorithm.eval_shelves heuristic st.shelves item 0
    if best_score = 0 then
      if ShelfAlgorithm.can_create_shelf st item then
        let vertical_offset := bin.height - st.available_height
        let shelf : Shelf :=
          { width := bin.width, height := item.height, available_width := bin.width,
            vertical_offset := vertical_offset, items := [], rotation := rotation }
        ShelfAlgorithm.evaluate_shelf heuristic shelf item
      else (0, item)
    else (best_score, item)

/-- The loop of `ShelfAlgorithm.find_best_bin` over the manager's bins. -/
def ShelfAlgorithm.search_bins (rotation : Bool) (heuristic : BinHeuristicType)
    (bin_shelves : Nat → Option ShelfBinState) :
    List Bin → Item → Nat → Option Nat → ℚ → Option Nat
  | [], _, _, best, _ => best
  | bin :: rest, item, i, best, best_score =>
    let (score, item) := ShelfAlgorithm.evaluate_bin rotation heuristic bin_shelves bin item
    let (best, best_score) :=
      if best_score < score then (some i, score) else (best, best_score)
    if best_score = 1 then best
    else ShelfAlgorithm.search_bins rotation heuristic bin_shelves rest item (i + 1) best best_score

/-- `ShelfAlgorithm.find_best_bin`, returning the index of the chosen bin
(`None` becomes `none`). -/
def ShelfAlgorithm.find_best_bin (rotation : Bool) (heuristic : BinHeuristicType)
    (bin_shelves : Nat → Option ShelfBinState) (bins : List Bin) (item : Item) :
    Option Nat :=
  ShelfAlgorithm.search_bins rotation heuristic bin_shelves bins item 0 none 0

/-- `SkylineSegment` named tuple from skyline.py. -/
structure SkylineSegment where
  x : Int
  y : Int
  width : Int
deriving DecidableEq, Repr

/-- The per-bin value stored in `SkylineAlgorithm.bin_skyline`. -/
structure SkylineBinState where
  starting_segment : SkylineSegment
  skyline : List SkylineSegment
deriving DecidableEq, Repr

/-- `SkylineAlgorithm.initialize_bin`. -/
def SkylineAlgorithm.initialize_bin (bin : Bin) : SkylineBinState :=
  let starting_segment : SkylineSegment := ⟨0, 0, bin.width⟩
  { starting_segment := starting_segment, skyline := [starting_segment] }

/-- `SkylineAlgorithm._clip_segment`: the part of a skyline segment not
horizontally under the (already placed) item. -/
def SkylineAlgorithm.clip_segment (segment : SkylineSegment) (item : Item) :
    List SkylineSegment :=
  let itemx := item.x
  let item_end_x := itemx + item.width
  let segx := segment.x
  let seg_end_x := segx + segment.width
  if segx > item_end_x ∨ seg_end_x < itemx then [segment]
  else if segx ≥ itemx ∧ seg_end_x ≤ item_end_x then []
  else if segx < itemx ∧ seg_end_x ≤ item_end_x then
    [⟨segx, segment.y, itemx - segx⟩]
  else if segx ≥ itemx ∧ seg_end_x > item_end_x then
    [⟨item_end_x, segment.y, seg_end_x - item_end_x⟩]
  else if segx < itemx ∧ seg_end_x > item_end_x then
    [⟨segx, segment.y, itemx - segx⟩, ⟨item_end_x, segment.y, seg_end_x - item_end_x⟩]
  else []

/-- The sort key `(seg.x, seg.y, seg.width)` used by the `sorted` calls
of skyline.py, as a total preorder on segments. -/
def SkylineSegment.le (a b : SkylineSegment) : Prop :=
  a.x < b.x ∨ (a.x = b.x ∧ (a.y < b.y ∨ (a.y = b.y ∧ a.width ≤ b.width)))

instance : DecidableRel SkylineSegment.le := fun a b => by
  unfold SkylineSegment.le; infer_instance

/-- Stable insertion into a segment list sorted by `(x, y, width)`. -/
def SkylineAlgorithm.seg_insert (a : SkylineSegment) :
    List SkylineSegment → List SkylineSegment
  | [] => [a]
  | b :: l =>
    if SkylineSegment.le a b then a :: b :: l else b :: SkylineAlgorithm.seg_insert a l

/-- Stable sort of segments by `(x, y, width)`; extensionally the
`sorted(..., key=lambda seg: (seg.x, seg.y, seg.width))` of skyline.py
(Python's `sorted` is specified as a stable sort). -/
def SkylineAlgorithm.seg_sort : List SkylineSegment → List SkylineSegment
  | [] => []
  | a :: l => SkylineAlgorithm.seg_insert a (SkylineAlgorithm.seg_sort l)

/-- `SkylineAlgorithm._update_segment`: clip every segment against the
placed item and add the segment on top of the item when it does not reach
the bin ceiling.  (The source also receives the fit height `y` but reads
the already-assigned `item.y` instead.) -/
def SkylineAlgorithm.update_segment (bin : Bin) (skyline : List SkylineSegment)
    (segment : SkylineSegment) (item : Item) : List SkylineSegment :=
  let new_segments := skyline.flatMap (fun seg => SkylineAlgorithm.clip_segment seg item)
  let new_segments :=
    if new_segments.length ≠ 0 then SkylineAlgorithm.seg_sort new_segments else new_segments
  if item.height + item.y < bin.height then
    let new_seg_y := item.y + item.height
    let new_seg : SkylineSegment := ⟨segment.x, new_seg_y, item.width⟩
    SkylineAlgorithm.seg_sort (new_segments ++ [new_seg])
  else new_segments

/-- The accumulator loop of `SkylineAlgorithm._merge_segments`: walk the
tail of the list, fusing each segment into the last accumulated one when
both heights match and they are horizontally adjacent (`list.remove` is
remove-first-occurrence, i.e. `List.erase`). -/
def SkylineAlgorithm.merge_loop (acc : List SkylineSegment) :
    List SkylineSegment → List SkylineSegment
  | [] => acc
  | seg :: rest =>
    -- acc is never empty: it starts from one segment and never shrinks to zero
    let last := acc.getLast?.getD ⟨0, 0, 0⟩
    if seg.y = last.y ∧ seg.x = last.x + last.width then
      let new_last : SkylineSegment := ⟨last.x, last.y, (seg.x + seg.width) - last.x⟩
      SkylineAlgorithm.merge_loop ((acc.erase last) ++ [new_last]) rest
    else
      SkylineAlgorithm.merge_loop (acc ++ [seg]) rest

/-- `SkylineAlgorithm._merge_segments`.  The source reads `skyline[0]`
and loops over `skyline[1:]`; on an empty list it would raise IndexError
(which `pack_item` can reach when a ceiling-touching full-width item
empties the skyline) -- the embedding returns the empty list there. -/
def SkylineAlgorithm.merge_segments (skyline : List SkylineSegment) :
    List SkylineSegment :=
  match skyline with
  | [] => []
  | first :: rest => SkylineAlgorithm.seg_sort (SkylineAlgorithm.merge_loop [first] rest)

/-- The width-consuming loop of `SkylineAlgorithm._check_fit`: walk
segments from the candidate one on, raising `y` to the maximal contour
height, until the item width is covered. -/
def SkylineAlgorithm.check_fit_loop (bin : Bin) (item_height : Int) :
    List SkylineSegment → Int → Int → Option Int
  | [], width, y => if width > 0 then none else some y
  | seg :: rest, width, y =>
    if width > 0 then
      let y := max y seg.y
      if y + item_height > bin.height then none
      else SkylineAlgorithm.check_fit_loop bin item_height rest (width - seg.width) y
    else some y

/-- `SkylineAlgorithm._check_fit`: whether an `item_width × item_height`
rectangle can sit above the skyline segment at `sky_index`; returns the
resting height `y` on success. -/
def SkylineAlgorithm.check_fit (bin : Bin) (skyline : List SkylineSegment)
    (item_width item_height : Int) (sky_index : Nat) : Option Int :=
  match skyline.get? sky_index with
  | none => none   -- the caller always passes a valid index
  | some seg =>
    if seg.x + item_width > bin.width then none
    else if seg.y + item_height > bin.height then none
    else SkylineAlgorithm.check_fit_loop bin item_height (skyline.drop sky_index)
      item_width seg.y

/-- The summation loop of `SkylineAlgorithm.calc_waste` (a `for` over
`segs[i:]` with a `break`). -/
def SkylineAlgorithm.calc_waste_loop (item_left item_right y : Int) :
    List SkylineSegment → Int → Int
  | [], acc => acc
  | seg :: rest, acc =>
    if seg.x ≥ item_right ∨ seg.x + seg.width ≤ item_left then acc
    else
      let left_side := seg.x
      let right_side := min item_right (seg.x + seg.width)
      SkylineAlgorithm.calc_waste_loop item_left item_right y rest
        (acc + (right_side - left_side) * (y - seg.y))

/-- `SkylineAlgorithm.calc_waste`: total wasted area below an item
inserted above segment `i` at height `y`. -/
def SkylineAlgorithm.calc_waste (segs : List SkylineSegment) (item : Item) (y : Int)
    (i : Nat) (rotation : Bool) : Int :=
  match segs.get? i with
  | none => 0   -- the caller always passes a valid index
  | some seg0 =>
    let item_left := seg0.x
    let item_right := if rotation then item_left + item.height else item_left + item.width
    SkylineAlgorithm.calc_waste_loop item_left item_right y (segs.drop i) 0

/-- `SkylineAlgorithm._score`: the skyline engine scores with raw indices,
areas and absolute dimension gaps rather than the `[0,1]` ratios used by
the other engines. -/
def SkylineAlgorithm.score (heuristic : BinHeuristicType) (segs : List SkylineSegment)
    (item : Item) (y : Int) (i : Nat) (bin : Bin) (rotation : Bool) : ℚ :=
  match heuristic with
  | .next_fit | .first_fit => (i : ℚ)
  | .best_area_fit | .worst_area_fit =>
    ((bin.remaining_area - SkylineAlgorithm.calc_waste segs item y i rotation : Int) : ℚ)
  | .best_width_fit | .worst_width_fit =>
    ((|((segs.get? i).getD ⟨0, 0, 0⟩).width -
        (if rotation then item.height else item.width)| : Int) : ℚ)
  | .best_height_fit | .worst_height_fit =>
    ((|((segs.get? i).getD ⟨0, 0, 0⟩).y -
        (if rotation then item.width else item.height)| : Int) : ℚ)

/-- One scored placement candidate of `_find_best_score`:
`(score, segment, y, rotated)`. -/
structure SkylineCandidate where
  score : ℚ
  segment : SkylineSegment
  y : Int
  rotated : Bool
deriving DecidableEq, Repr

/-- The candidate enumeration of `SkylineAlgorithm._find_best_score`: for
every segment index, the unrotated and (when enabled) rotated fits that
succeed, in order. -/
def SkylineAlgorithm.candidates (rotation : Bool) (heuristic : BinHeuristicType)
    (bin : Bin) (skyline : List SkylineSegment) (item : Item) : List SkylineCandidate :=
  (List.range skyline.length).flatMap fun i =>
    let segment := (skyline.get? i).getD ⟨0, 0, 0⟩
    let base := match SkylineAlgorithm.check_fit bin skyline item.width item.height i with
      | some y =>
        [⟨SkylineAlgorithm.score heuristic skyline item y i bin false, segment, y, false⟩]
      | none => []
    let rot := if rotation then
        match SkylineAlgorithm.check_fit bin skyline item.height item.width i with
        | some y =>
          [⟨SkylineAlgorithm.score heuristic skyline item y i bin true, segment, y, true⟩]
        | none => []
      else []
    base ++ rot

/-- Python's `min(..., key=lambda x: x[0])` over candidates: the first
candidate attaining the minimal score. -/
def SkylineAlgorithm.min_by_score (c : SkylineCandidate) :
    List SkylineCandidate → SkylineCandidate
  | [] => c
  | d :: rest => SkylineAlgorithm.min_by_score (if d.score < c.score then d else c) rest

/-- Python's `max(..., key=lambda x: x[0])` over candidates: the first
candidate attaining the maximal score. -/
def SkylineAlgorithm.max_by_score (c : SkylineCandidate) :
    List SkylineCandidate → SkylineCandidate
  | [] => c
  | d :: rest => SkylineAlgorithm.max_by_score (if c.score < d.score then d else c) rest

/-- `SkylineAlgorithm._find_best_score`: minimal score for the `worst_*`
heuristics, maximal otherwise; `none` models the caught `ValueError` on
an empty candidate list. -/
def SkylineAlgorithm.find_best_score (rotation : Bool) (heuristic : BinHeuristicType)
    (bin : Bin) (skyline : List SkylineSegment) (item : Item) :
    Option SkylineCandidate :=
  match SkylineAlgorithm.candidates rotation heuristic bin skyline item with
  | [] => none
  | c :: rest =>
    if heuristic = .worst_height_fit ∨ heuristic = .worst_width_fit ∨
        heuristic = .worst_area_fit then
      some (SkylineAlgorithm.min_by_score c rest)
    else some (SkylineAlgorithm.max_by_score c rest)

/-- `SkylineAlgorithm.pack_item`. -/
def SkylineAlgorithm.pack_item (rotation : Bool) (heuristic : BinHeuristicType)
    (bin_skyline : Nat → Option SkylineBinState) (bin : Bin) (item : Item) :
    Bool × (Nat → Option SkylineBinState) × Bin × Item :=
  let st := match bin_skyline bin.id with
    | some st => st
    | none => SkylineAlgorithm.initialize_bin bin
  match SkylineAlgorithm.find_best_score rotation heuristic bin st.skyline item with
  | none => (false, mapSet bin_skyline bin.id st, bin, item)
  | some best =>
    let item := if best.rotated then item.rotate else item
    let item := { item with x := best.segment.x, y := best.y }
    let bin' := { bin with items := bin.items ++ [item] }
    let skyline' := SkylineAlgorithm.update_segment bin st.skyline best.segment item
    let skyline'' := SkylineAlgorithm.merge_segments skyline'
    (true, mapSet bin_skyline bin.id { st with skyline := skyline'' }, bin', item)

/-- `SkylineAlgorithm.evaluate_bin`: `some 0` when the item cannot fit the
bin at all (the source returns the int 0), `none` when no segment admits
it (the source returns Python's `None`), otherwise the best score. -/
def SkylineAlgorithm.evaluate_bin (rotation : Bool) (heuristic : BinHeuristicType)
    (bin_skyline : Nat → Option SkylineBinState) (bin : Bin) (item : Item) : Option ℚ :=
  match PackingAlgorithm.check_item_fit rotation bin item with
  | (false, _) => some 0
  | (true, _) =>
    let st := (bin_skyline bin.id).getD (SkylineAlgorithm.initialize_bin bin)
    match SkylineAlgorithm.find_best_score rotation heuristic bin st.skyline item with
    | none => none
    | some best => some best.score

/-- The loop of `SkylineAlgorithm.find_best_bin`: `None` scores are
skipped; unlike the other engines the perfect-score short-circuit is
commented out in the source. -/
def SkylineAlgorithm.search_bins (rotation : Bool) (heuristic : BinHeuristicType)
    (bin_skyline : Nat → Option SkylineBinState) :
    List Bin → Item → Nat → Option Nat → ℚ → Option Nat
  | [], _, _, best, _ => best
  | bin :: rest, item, i, best, best_score =>
    match SkylineAlgorithm.evaluate_bin rotation heuristic bin_skyline bin item with
    | none =>
      SkylineAlgorithm.search_bins rotation heuristic bin_skyline rest item (i + 1)
        best best_score
    | some score =>
      let (best, best_score) :=
        if best_score < score then (some i, score) else (best, best_score)
      SkylineAlgorithm.search_bins rotation heuristic bin_skyline rest item (i + 1)
        best best_score

/-- `SkylineAlgorithm.find_best_bin`, returning the index of the chosen
bin. -/
def SkylineAlgorithm.find_best_bin (rotation : Bool) (heuristic : BinHeuristicType)
    (bin_skyline : Nat → Option SkylineBinState) (bins : List Bin) (item : Item) :
    Option Nat :=
  SkylineAlgorithm.search_bins rotation heuristic bin_skyline bins item 0 none 0

/-- The single strategy instance owned by the manager; only the shelf and
skyline engines are constructible through `initialize_algorithm`. -/
inductive PackingAlgorithmState where
  | shelf (bin_shelves : Nat → Option ShelfBinState)
  | skyline (bin_skyline : Nat → Option SkylineBinState)

/-- `BinManager.initialize_algorithm` from bins.py: despite the four-value
enumeration, the `match` has arms only for `shelf` and `skyline`; the
catch-all raises ValueError (its f-string even reads `self.algorithm`
before that attribute has been assigned). -/
def BinManager.initialize_algorithm (algorithm : BinPackingAlgorithmType) :
    Except String PackingAlgorithmState :=
  match algorithm with
  | .shelf => .ok (.shelf fun _ => none)
  | .skyline => .ok (.skyline fun _ => none)
  | _ => .error "Unknown algorithm"

/-- `BinManager` from bins.py (the uuid identities of bins become the
`next_bin_id` counter). -/
structure BinManager where
  bin_width : Int
  bin_height : Int
  heuristic : BinHeuristicType
  rotation : Bool
  algorithm : PackingAlgorithmState
  sorting_strategy : SortStrategy
  bins : List Bin
  next_bin_id : Nat

/-- The `BinManager` constructor: fails exactly when
`initialize_algorithm` raises. -/
def BinManager.new (bin_width bin_height : Int) (algorithm : BinPackingAlgorithmType)
    (heuristic : BinHeuristicType) (rotation : Bool) (sorting_strategy : SortStrategy) :
    Except String BinManager :=
  match BinManager.initialize_algorithm algorithm with
  | .error e => .error e
  | .ok alg =>
    .ok { bin_width := bin_width, bin_height := bin_height, heuristic := heuristic,
          rotation := rotation, algorithm := alg, sorting_strategy := sorting_strategy,
          bins := [], next_bin_id := 0 }

/-- `BinManager.sort_items`. -/
def BinManager.sort_items (strategy : SortStrategy) (items : List Item) : List Item :=
  if strategy ≠ SortStrategy.NONE then stableSortByKey strategy.key items else items

/-- Dispatch of `find_best_bin` through the strategy instance. -/
def PackingAlgorithmState.find_best_bin (alg : PackingAlgorithmState) (rotation : Bool)
    (heuristic : BinHeuristicType) (bins : List Bin) (item : Item) : Option Nat :=
  match alg with
  | .shelf m => ShelfAlgorithm.find_best_bin rotation heuristic m bins item
  | .skyline m => SkylineAlgorithm.find_best_bin rotation heuristic m bins item

/-- Dispatch of `pack_item` through the strategy instance. -/
def PackingAlgorithmState.pack_item (alg : PackingAlgorithmState) (rotation : Bool)
    (heuristic : BinHeuristicType) (bin : Bin) (item : Item) :
    Bool × PackingAlgorithmState × Bin × Item :=
  match alg with
  | .shelf m =>
    let (ok, m', bin', item') := ShelfAlgorithm.pack_item rotation heuristic m bin item
    (ok, .shelf m', bin', item')
  | .skyline m =>
    let (ok, m', bin', item') := SkylineAlgorithm.pack_item rotation heuristic m bin item
    (ok, .skyline m', bin', item')

/-- One iteration of the `execute` loop for a single item: choose the best
existing bin or open a fresh one, then pack into it; the success flag is
what `execute` silently discards. -/
def BinManager.step (m : BinManager) (item : Item) : BinManager × Bool :=
  match m.algorithm.find_best_bin m.rotation m.heuristic m.bins item with
  | some i =>
    match m.bins.get? i with
    | some bin =>
      let (ok, alg', bin', _) := m.algorithm.pack_item m.rotation m.heuristic bin item
      ({ m with algorithm := alg', bins := m.bins.set i bin' }, ok)
    | none => (m, false)   -- unreachable: find_best_bin indexes an existing bin
  | none =>
    let bin : Bin :=
      { width := m.bin_width, height := m.bin_height, items := [], id := m.next_bin_id }
    let (ok, alg', bin', _) := m.algorithm.pack_item m.rotation m.heuristic bin item
    let m' :=
      { m with algorithm := alg', bins := m.bins ++ [bin'],
               next_bin_id := m.next_bin_id + 1 }
    (m', ok)

/-- `BinManager.execute`: sort, then pack each item in turn.  The boolean
returned by `pack_item` is ignored, exactly as in the source. -/
def BinManager.execute (m : BinManager) (items : List Item) : BinManager :=
  (BinManager.sort_items m.sorting_strategy items).foldl (fun m it => (m.step it).1) m

/-- Companion to `execute` on an already-sorted list that also records the
items whose `pack_item` returned `False`; its first component replays
`execute`.  Used to state what the silent-failure policy actually does. -/
def BinManager.run (m : BinManager) : List Item → BinManager × List Item
  | [] => (m, [])
  | it :: rest =>
    let (m', ok) := m.step it
    let (mf, dropped) := (BinManager.run m' rest)
    (mf, if ok then dropped else it :: dropped)

/-- `FreeRectangle` named tuple from guillotine.py. -/
structure FreeRectangle where
  width : Int
  height : Int
  x : Int
  y : Int
deriving DecidableEq, Repr

/-- `FreeRectangle.area` property. -/
def FreeRectangle.area (r : FreeRectangle) : Int := r.width * r.height

/-- `Guillotine` dataclass from guillotine.py: the per-bin free-rectangle
state. -/
structure Guillotine where
  height : Int
  width : Int
  area : Int
  free_area : Int
  free_rects : List FreeRectangle
  items : List Item
  rotation : Bool
  merge : Bool
deriving DecidableEq, Repr

/-- `Guillotine.check_rect_fit` (the source reads `self.rotation`; the
flag is passed explicitly because `find_best_free_rect` invokes this
method with the algorithm object as `self` while `insert_item` uses the
per-bin state -- both carry the same configured flag). -/
def Guillotine.check_rect_fit (rotation : Bool) (rect : FreeRectangle) (item : Item) :
    Bool × Bool :=
  let fits_without := decide (item.width ≤ rect.width) && decide (item.height ≤ rect.height)
  let needs_rot :=
    rotation && decide (item.height ≤ rect.width) && decide (item.width ≤ rect.height)
  if fits_without then (true, false)
  else if needs_rot then (true, true)
  else (false, false)

/-- `Guillotine.split_along_axis`: the two children of the chosen free
rectangle after pinning the item to its bottom-left corner; zero-sized
children are discarded. -/
def Guillotine.split_along_axis (rect : FreeRectangle) (item : Item) (split : Bool) :
    List FreeRectangle :=
  let top_x := rect.x
  let top_y := rect.y + item.height
  let top_h := rect.height - item.height
  let right_x := rect.x + item.width
  let right_y := rect.y
  let right_w := rect.width - item.width
  let top_w := if split then rect.width else item.width
  let right_h := if split then item.height else rect.height
  (if right_w > 0 ∧ right_h > 0 then
    [({ width := right_w, height := right_h, x := right_x, y := right_y } : FreeRectangle)]
   else []) ++
  (if top_w > 0 ∧ top_h > 0 then
    [({ width := top_w, height := top_h, x := top_x, y := top_y } : FreeRectangle)]
   else [])

/-- `Guillotine.split_free_rect`: always the horizontal split (the split
heuristic is a TODO in the source). -/
def Guillotine.split_free_rect (item : Item) (rect : FreeRectangle) :
    List FreeRectangle :=
  Guillotine.split_along_axis rect item true

/-- `Guillotine.insert_item`: place the item in the chosen free rectangle,
remove that rectangle (`list.remove`, i.e. erase the first structurally
equal entry) and append its split children. -/
def Guillotine.insert_item (g : Guillotine) (rect : FreeRectangle) (item : Item) :
    Bool × Guillotine × Item :=
  match Guillotine.check_rect_fit g.rotation rect item with
  | (false, _) => (false, g, item)
  | (true, needs_rot) =>
    let item := if needs_rot then item.rotate else item
    let free_area := g.free_area - item.area
    let item := { item with x := rect.x, y := rect.y }
    let items := g.items ++ [item]
    let free_rects := g.free_rects.erase rect
    let splits := Guillotine.split_free_rect item rect
    (true,
     { g with free_area := free_area, items := items, free_rects := free_rects ++ splits },
     item)

/-- `GuillotineAlgorithm.initialize_bin`: one free rectangle covering the
whole bin. -/
def GuillotineAlgorithm.initialize_bin (rotation : Bool) (bin : Bin) : Guillotine :=
  { height := bin.height, width := bin.width, area := bin.width * bin.height,
    free_area := bin.width * bin.height,
    free_rects := [{ width := bin.width, height := bin.height, x := 0, y := 0 }],
    items := [], rotation := rotation, merge := false }

/-- `GuillotineAlgorithm.evaluate_free_rect`: scores in `[0,1]`; unlike
the other engines, `best_area_fit` here is the occupied-area ratio
itself. -/
def GuillotineAlgorithm.evaluate_free_rect (heuristic : BinHeuristicType)
    (rect : FreeRectangle) (item : Item) : ℚ :=
  let area_occupied : ℚ := ((item.area : Int) : ℚ) / ((rect.area : Int) + epsilon)
  let width_occupied : ℚ :=
    ((rect.width - item.width : Int) : ℚ) / ((rect.width : Int) + epsilon)
  let height_occupied : ℚ :=
    ((rect.height - item.height : Int) : ℚ) / ((rect.height : Int) + epsilon)
  match heuristic with
  | .next_fit | .first_fit => 1
  | .best_area_fit => area_occupied
  | .worst_area_fit => 1 - area_occupied
  | .best_width_fit => 1 - width_occupied
  | .worst_width_fit => width_occupied
  | .best_height_fit => 1 - height_occupied
  | .worst_height_fit => height_occupied

/-- The loop of `GuillotineAlgorithm.find_best_free_rect` with its
perfect-score short-circuit; unfitting rectangles are skipped. -/
def GuillotineAlgorithm.search_rects (rotation : Bool) (heuristic : BinHeuristicType)
    (item : Item) : List FreeRectangle → Option FreeRectangle → ℚ → Option FreeRectangle
  | [], best, _ => best
  | rect :: rest, best, best_score =>
    match Guillotine.check_rect_fit rotation rect item with
    | (false, _) =>
      GuillotineAlgorithm.search_rects rotation heuristic item rest best best_score
    | (true, _) =>
      let score := GuillotineAlgorithm.evaluate_free_rect heuristic rect item
      let (best, best_score) :=
        if best_score < score then (some rect, score) else (best, best_score)
      if best_score = 1 then best
      else GuillotineAlgorithm.search_rects rotation heuristic item rest best best_score

/-- `GuillotineAlgorithm.find_best_free_rect`. -/
def GuillotineAlgorithm.find_best_free_rect (rotation : Bool)
    (heuristic : BinHeuristicType) (g : Guillotine) (item : Item) :
    Option FreeRectangle :=
  GuillotineAlgorithm.search_rects rotation heuristic item g.free_rects none 0

/-- `GuillotineAlgorithm.pack_item`. -/
def GuillotineAlgorithm.pack_item (rotation : Bool) (heuristic : BinHeuristicType)
    (bin_guillotine : Nat → Option Guillotine) (bin : Bin) (item : Item) :
    Bool × (Nat → Option Guillotine) × Bin × Item :=
  let g := match bin_guillotine bin.id with
    | some g => g
    | none => GuillotineAlgorithm.initialize_bin rotation bin
  match GuillotineAlgorithm.find_best_free_rect rotation heuristic g item with
  | none => (false, mapSet bin_guillotine bin.id g, bin, item)
  | some rect =>
    match g.insert_item rect item with
    | (false, g', _) => (false, mapSet bin_guillotine bin.id g', bin, item)
    | (true, g', item') =>
      (true, mapSet bin_guillotine bin.id g',
       { bin with items := bin.items ++ [item'] }, item')

/-- `AvailableRect` dataclass from maxrects.py. -/
structure AvailableRect where
  x : Int
  y : Int
  width : Int
  height : Int
  items : List Item
  rotation : Bool
deriving DecidableEq, Repr

/-- `AvailableRect.area` property (the getter; the setter, which
reassigns `width`, is only reached from `insert_item`). -/
def AvailableRect.area (r : AvailableRect) : Int := r.width * r.height

/-- `AvailableRect.check_item_fit`. -/
def AvailableRect.check_item_fit (r : AvailableRect) (item : Item) : Bool × Bool :=
  let fits_without := decide (item.width ≤ r.width) && decide (item.height ≤ r.height)
  let needs_rot := r.rotation && decide (item.height ≤ r.width) && decide (item.width ≤ r.height)
  if fits_without then (true, false)
  else if needs_rot then (true, true)
  else (false, false)

/-- `MaxRectsAlgorithm.evaluate_rect`: same scoring scheme as the shelf
engine except that the area numerator multiplies both dimension gaps;
the temporary rotation is restored in the `finally` block. -/
def MaxRectsAlgorithm.evaluate_rect (heuristic : BinHeuristicType)
    (rect : AvailableRect) (item : Item) : ℚ × Item :=
  match rect.check_item_fit item with
  | (false, _) => (0, item)
  | (true, needs_rot) =>
    let item := if needs_rot then item.rotate else item
    let area_occupied : ℚ :=
      (((rect.width - item.width) * (rect.height - item.height) : Int) : ℚ) /
        ((rect.area : Int) + epsilon)
    let width_occupied : ℚ :=
      ((rect.width - item.width : Int) : ℚ) / ((rect.width : Int) + epsilon)
    let height_occupied : ℚ :=
      ((rect.height - item.height : Int) : ℚ) / ((rect.height : Int) + epsilon)
    let score : ℚ :=
      match heuristic with
      | .next_fit | .first_fit => 1
      | .best_area_fit => 1 - area_occupied
      | .worst_area_fit => area_occupied
      | .best_width_fit => 1 - width_occupied
      | .worst_width_fit => width_occupied
      | .best_height_fit => 1 - height_occupied
      | .worst_height_fit => height_occupied
    (score, if needs_rot then item.rotate else item)

/-- Containment of a placed item in a bin of the given dimensions
(property P1 of the specification). -/
def ItemInBounds (bin_width bin_height : Int) (it : Item) : Prop :=
  0 ≤ it.x ∧ 0 ≤ it.y ∧ it.x + it.width ≤ bin_width ∧ it.y + it.height ≤ bin_height

/-- Geometric soundness of one shelf relative to the configured bin size
and the current available height of its bin. -/
def ShelfSound (bin_width bin_height avail_height : Int) (sh : Shelf) : Prop :=
  sh.width = bin_width ∧ 0 ≤ sh.available_width ∧ sh.available_width ≤ sh.width ∧
  0 ≤ sh.vertical_offset ∧ sh.vertical_offset + sh.height ≤ bin_height - avail_height

/-- Soundness of one per-bin shelf state. -/
def ShelfStateSound (bin_width bin_height : Int) (st : ShelfBinState) : Prop :=
  0 ≤ st.available_height ∧ st.available_height ≤ bin_height ∧
  ∀ sh ∈ st.shelves, ShelfSound bin_width bin_height st.available_height sh

/-- Soundness of one per-bin skyline state: all segments start at
non-negative coordinates. -/
def SkylineStateSound (st : SkylineBinState) : Prop :=
  ∀ seg ∈ st.skyline, 0 ≤ seg.x ∧ 0 ≤ seg.y

/-- Soundness of the whole strategy state: every stored per-bin state is
sound for the configured bin dimensions. -/
def AlgStateSound (bin_width bin_height : Int) : PackingAlgorithmState → Prop
  | .shelf bin_shelves =>
    ∀ k st, bin_shelves k = some st → ShelfStateSound bin_width bin_height st
  | .skyline bin_skyline =>
    ∀ k st, bin_skyline k = some st → SkylineStateSound st

/-- The inductive soundness invariant of a manager: every bin has the
configured dimensions and contains only items inside its bounds, and the
strategy state is sound. -/
def ManagerSound (m : BinManager) : Prop :=
  (∀ b ∈ m.bins, b.width = m.bin_width ∧ b.height = m.bin_height ∧
    ∀ it ∈ b.items, ItemInBounds m.bin_width m.bin_height it) ∧
  AlgStateSound m.bin_width m.bin_height m.algorithm

/-- The multiset of ids of all items placed in the manager's bins. -/
def BinManager.placed_ids (m : BinManager) : List String :=
  (m.bins.map fun b => b.items.map Item.id).flatten

/-- The free-space accounting invariant of one guillotine per-bin state
(property P4 of the specification). -/
def GuillotineInv (g : Guillotine) : Prop :=
  (g.free_rects.map FreeRectangle.area).sum + (g.items.map Item.area).sum =
    g.width * g.height

/-- An item whose dimensions exceed the configured bin size even after
the allowed rotation (error case 2 of the specification). -/
def Unpackable (bin_width bin_height : Int) (rotation : Bool) (item : Item) : Prop :=
  ¬(item.width ≤ bin_width ∧ item.height ≤ bin_height) ∧
  ¬(rotation = true ∧ item.height ≤ bin_width ∧ item.width ≤ bin_height)

/-- No engine state is stored for ids the manager has not issued yet;
this holds throughout every run because bin ids come from the counter. -/
def BinManager.fresh_state (m : BinManager) : Prop :=
  match m.algorithm with
  | .shelf bin_shelves => ∀ k, m.next_bin_id ≤ k → bin_shelves k = none
  | .skyline bin_skyline => ∀ k, m.next_bin_id ≤ k → bin_skyline k = none

/-- `SkylineCover hi segs lo`: the segment list is sorted by `x`,
contiguous with positive widths, and covers exactly the interval
`[lo, hi)` -- invariant I6 of the specification. -/
def SkylineCover (hi : Int) : List SkylineSegment → Int → Prop
  | [], lo => lo = hi
  | s :: rest, lo => s.x = lo ∧ 0 < s.width ∧ SkylineCover hi rest (lo + s.width)

/-- `SkylineCover` is decidable, so concrete skylines can be checked by
evaluation. -/
def skylineCoverDec (hi : Int) :
    (segs : List SkylineSegment) → (lo : Int) → Decidable (SkylineCover hi segs lo)
  | [], lo => inferInstanceAs (Decidable (lo = hi))
  | s :: rest, lo =>
    haveI := skylineCoverDec hi rest (lo + s.width)
    inferInstanceAs (Decidable (s.x = lo ∧ 0 < s.width ∧ SkylineCover hi rest (lo + s.width)))

attribute [instance] skylineCoverDec

/-- The manager used by the concrete scenarios: 10×10 bins, shelf
strategy, `first_fit`, no rotation, no sorting (the successful result of
`BinManager.new 10 10 shelf first_fit False NONE`). -/
def mgr10shelf : BinManager :=
  { bin_width := 10, bin_height := 10, heuristic := .first_fit, rotation := false,
    algorithm := .shelf fun _ => none, sorting_strategy := .NONE, bins := [],
    next_bin_id := 0 }

/-- Concrete scoring inputs used by witnesses: a shelf slot of available
width 10 and height 5, and a fitting 2×3 item. -/
def cshelf : Shelf := ⟨5, 10, 10, 0, [], false⟩

/-- A 10×5 maxrects free rectangle. -/
def crect : AvailableRect := ⟨0, 0, 10, 5, [], false⟩

/-- A 10×5 guillotine free rectangle. -/
def cfree : FreeRectangle := ⟨10, 5, 0, 0⟩

/-- A 2×3 item. -/
def citem : Item := ⟨2, 3, false, -1, -1, "i"⟩

/-- The single bin produced by packing one 5×5 item into the fresh 10×10
shelf manager (used as a concrete containment witness). -/
def c1bin : Bin := { width := 10, height := 10, items := [⟨5, 5, false, 0, 0, "a"⟩], id := 0 }

/-- C7: with a 10×10 bin, items (5,5,"a"), (5,5,"b"), (5,5,"c"),
(5,5,"d"), shelf algorithm, `first_fit`, rotation disabled and no
sorting, `execute` returns exactly one bin placing a at (0,0), b at
(5,0), c at (0,5) and d at (5,5). -/
theorem scenario_S1_one_bin_with_expected_placements :
    BinManager.new 10 10 .shelf .first_fit false .NONE = .ok mgr10shelf ∧
    ((mgr10shelf.execute
        [⟨5, 5, false, -1, -1, "a"⟩, ⟨5, 5, false, -1, -1, "b"⟩,
         ⟨5, 5, false, -1, -1, "c"⟩, ⟨5, 5, false, -1, -1, "d"⟩]).bins.map
      fun b => b.items.map fun it => (it.id, it.x, it.y)) =
      [[("a", 0, 0), ("b", 5, 0), ("c", 0, 5), ("d", 5, 5)]] := by
  refine ⟨rfl, by with_unfolding_all decide⟩

/-- C3: contrary to the claim, construction succeeds only for `shelf` and
`skyline`; the enumeration members `maxrects` and `guillotine` fall into
the raising catch-all of `initialize_algorithm`, so a configuration error
is reported for two of the four enumerated algorithms. -/
theorem initialize_algorithm_rejects_maxrects_and_guillotine :
    BinManager.initialize_algorithm .shelf = .ok (.shelf fun _ => none) ∧
    BinManager.initialize_algorithm .skyline = .ok (.skyline fun _ => none) ∧
    BinManager.initialize_algorithm .maxrects = .error "Unknown algorithm" ∧
    BinManager.initialize_algorithm .guillotine = .error "Unknown algorithm" ∧
    BinManager.new 10 10 .maxrects .first_fit false .NONE = .error "Unknown algorithm" ∧
    BinManager.new 10 10 .guillotine .first_fit false .NONE = .error "Unknown algorithm" :=
  ⟨rfl, rfl, rfl, rfl, rfl, rfl⟩

/-- C2 counterexample: executing a single 11×11 item against 10×10 shelf
bins returns normally with one bin that is empty; the input item appears
in no returned bin and no failure is surfaced, refuting the claim that
every input item is placed in exactly one bin with unpackable items
reported. -/
theorem execute_silently_drops_unpackable_item :
    BinManager.new 10 10 .shelf .first_fit false .NONE = .ok mgr10shelf ∧
    (mgr10shelf.execute [⟨11, 11, false, -1, -1, "a"⟩]).bins.map Bin.items = [[]] :=
  ⟨rfl, by with_unfolding_all decide⟩

/-- C5 counterexample: in the shelf engine, the slot of available width
W = 10 and height H = 5 (area A = 50) with a fitting 2×3 item scores
`1 − (W − I.w)·H/(A+ε) = 1 − 40/(50+ε) ≈ 0.2` while the spec formula
`1 − (W·H − I.w·I.h)/A = 1 − 44/50 = 0.12`; the gap exceeds 1/100, far
beyond the 1e-10 epsilon tolerance the claim allows. -/
theorem best_area_fit_shelf_deviates_from_spec_formula :
    ((⟨5, 10, 10, 0, [], false⟩ : Shelf).check_item_fit ⟨2, 3, false, -1, -1, "i"⟩).1
      = true ∧
    (ShelfAlgorithm.evaluate_shelf .best_area_fit ⟨5, 10, 10, 0, [], false⟩
        ⟨2, 3, false, -1, -1, "i"⟩).1 ≠
      1 - (((⟨5, 10, 10, 0, [], false⟩ : Shelf).area -
              (⟨2, 3, false, -1, -1, "i"⟩ : Item).area : Int) : ℚ) /
            (((⟨5, 10, 10, 0, [], false⟩ : Shelf).area : Int) : ℚ) ∧
    |(ShelfAlgorithm.evaluate_shelf .best_area_fit ⟨5, 10, 10, 0, [], false⟩
        ⟨2, 3, false, -1, -1, "i"⟩).1 -
      (1 - (((⟨5, 10, 10, 0, [], false⟩ : Shelf).area -
              (⟨2, 3, false, -1, -1, "i"⟩ : Item).area : Int) : ℚ) /
            (((⟨5, 10, 10, 0, [], false⟩ : Shelf).area : Int) : ℚ))| > 1 / 100 := by
  refine ⟨by decide, by with_unfolding_all decide, by with_unfolding_all decide⟩

/-- C6 counterexample: a 5×5 item fits the shelf slot of available width
5 and height 5, yet `worst_width_fit` scores it 0 -- a fitting pair with
score 0, so 0 is not reserved for "does not fit". -/
theorem worst_width_fit_scores_zero_on_fitting_pair :
    ((⟨5, 5, 5, 0, [], false⟩ : Shelf).check_item_fit ⟨5, 5, false, -1, -1, "i"⟩).1
      = true ∧
    (ShelfAlgorithm.evaluate_shelf .worst_width_fit ⟨5, 5, 5, 0, [], false⟩
        ⟨5, 5, false, -1, -1, "i"⟩).1 = 0 := by
  refine ⟨by decide, by with_unfolding_all decide⟩

/-- Rotating twice restores width, height and the `rotated` flag
(property P6 of the specification). -/
theorem Item.rotate_rotate (i : Item) : i.rotate.rotate = i := by
  simp [Item.rotate]

/-- `evaluate_shelf` hands the item back unchanged: the tentative
rotation is undone in the `finally` block. -/
theorem evaluate_shelf_snd (heuristic : BinHeuristicType) (sh : Shelf) (item : Item) :
    (ShelfAlgorithm.evaluate_shelf heuristic sh item).2 = item := by
  rcases h : sh.check_item_fit item with ⟨fits, nr⟩
  cases fits <;> cases nr <;>
    simp [ShelfAlgorithm.evaluate_shelf, h, Item.rotate_rotate]

/-- `evaluate_rect` hands the item back unchanged. -/
theorem evaluate_rect_snd (heuristic : BinHeuristicType) (r : AvailableRect) (item : Item) :
    (MaxRectsAlgorithm.evaluate_rect heuristic r item).2 = item := by
  rcases h : r.check_item_fit item with ⟨fits, nr⟩
  cases fits <;> cases nr <;>
    simp [MaxRectsAlgorithm.evaluate_rect, h, Item.rotate_rotate]

/-- The shelf-scanning loop of `evaluate_bin` hands the item back
unchanged. -/
theorem eval_shelves_snd (heuristic : BinHeuristicType) :
    ∀ (shelves : List Shelf) (item : Item) (s : ℚ),
      (ShelfAlgorithm.eval_shelves heuristic shelves item s).2 = item
  | [], _, _ => rfl
  | sh :: rest, item, s => by
    have h2 := evaluate_shelf_snd heuristic sh item
    rcases h : ShelfAlgorithm.evaluate_shelf heuristic sh item with ⟨score, item2⟩
    have hitem : item2 = item := by rw [← h2, h]
    simp only [ShelfAlgorithm.eval_shelves, h, hitem]
    by_cases hb : (if s < score then score else s) = 1 <;>
      simp [hb, eval_shelves_snd heuristic rest item]

/-- The shelf `evaluate_bin` hands the item back unchanged. -/
theorem evaluate_bin_snd (rot : Bool) (heuristic : BinHeuristicType)
    (bin_shelves : Nat → Option ShelfBinState) (bin : Bin) (item : Item) :
    (ShelfAlgorithm.evaluate_bin rot heuristic bin_shelves bin item).2 = item := by
  rcases h : PackingAlgorithm.check_item_fit rot bin item with ⟨fits, nr⟩
  cases fits
  · simp [ShelfAlgorithm.evaluate_bin, h]
  · rcases he : ShelfAlgorithm.eval_shelves heuristic
        ((bin_shelves bin.id).getD (ShelfAlgorithm.initialize_bin bin)).shelves item 0 with
      ⟨best, item2⟩
    have hitem : item2 = item := by rw [← eval_shelves_snd heuristic _ item 0, he]
    simp only [ShelfAlgorithm.evaluate_bin, h, he, hitem]
    by_cases hb : best = 0 <;>
      by_cases hc : ShelfAlgorithm.can_create_shelf
        ((bin_shelves bin.id).getD (ShelfAlgorithm.initialize_bin bin)) item = true <;>
      simp [hb, hc, evaluate_shelf_snd]

/-- C9: scoring leaves the item's width, height and `rotated` flag
unchanged on return: `evaluate_shelf` (shelf), `evaluate_rect` (maxrects)
and the shelf `evaluate_bin` return the item exactly as given, for every
heuristic, also when the rotated fit was evaluated; rotation is applied
to the item only at commit time inside `pack_item`'s insertion. -/
theorem scoring_restores_item_state (heuristic : BinHeuristicType) :
    (∀ sh item, (ShelfAlgorithm.evaluate_shelf heuristic sh item).2 = item) ∧
    (∀ r item, (MaxRectsAlgorithm.evaluate_rect heuristic r item).2 = item) ∧
    (∀ rot bin_shelves bin item,
      (ShelfAlgorithm.evaluate_bin rot heuristic bin_shelves bin item).2 = item) :=
  ⟨fun sh item => evaluate_shelf_snd heuristic sh item,
   fun r item => evaluate_rect_snd heuristic r item,
   fun rot bin_shelves bin item => evaluate_bin_snd rot heuristic bin_shelves bin item⟩

/-- A shelf fit reported as `(True, False)` is exactly an unrotated fit. -/
theorem shelf_fit_unrotated {sh : Shelf} {item : Item}
    (h : sh.check_item_fit item = (true, false)) :
    item.width ≤ sh.available_width ∧ item.height ≤ sh.height := by
  simp only [Shelf.check_item_fit] at h
  split at h
  · next hc =>
    simp only [Bool.and_eq_true, decide_eq_true_eq] at hc
    exact hc
  · split at h <;> simp at h

/-- A shelf fit reported as `(True, True)` is exactly a rotated fit with
rotation enabled. -/
theorem shelf_fit_rotated {sh : Shelf} {item : Item}
    (h : sh.check_item_fit item = (true, true)) :
    sh.rotation = true ∧ item.height ≤ sh.available_width ∧ item.width ≤ sh.height := by
  simp only [Shelf.check_item_fit] at h
  split at h
  · simp at h
  · split at h
    · next hc =>
      simp only [Bool.and_eq_true, decide_eq_true_eq] at hc
      exact ⟨hc.1.1, hc.1.2, hc.2⟩
    · simp at h

/-- If the numerator stays below a positive denominator, the
one-minus-ratio score is positive. -/
theorem score_pos_aux {num den : ℚ} (hnum : num < den) (hden : 0 < den) :
    0 < 1 - num / den := by
  have h1 : num / den < 1 := (div_lt_one hden).2 hnum
  linarith

/-- C5 amended: only the guillotine engine realizes the spec's
`best_area_fit` formula (up to the epsilon guard); for a fitting item the
shelf engine computes `1 − (W − I.w)·H/(A+ε)` and maxrects computes
`1 − (W − I.w)·(H − I.h)/(A+ε)`, which differ from
`1 − (W·H − I.w·I.h)/A` whenever the item leaves slack (see the
counterexample). -/
theorem best_area_fit_scores_by_engine
    (sh : Shelf) (r : AvailableRect) (fr : FreeRectangle) (item : Item)
    (hsh : sh.check_item_fit item = (true, false))
    (hr : r.check_item_fit item = (true, false))
    (hw : 0 ≤ item.width) (hh : 0 ≤ item.height)
    (hfw : item.width ≤ fr.width) (hfh : item.height ≤ fr.height)
    (hA : 1 ≤ fr.area) :
    (ShelfAlgorithm.evaluate_shelf .best_area_fit sh item).1 =
      1 - (((sh.available_width - item.width) * sh.height : Int) : ℚ) /
            (((sh.area : Int) : ℚ) + epsilon) ∧
    (MaxRectsAlgorithm.evaluate_rect .best_area_fit r item).1 =
      1 - (((r.width - item.width) * (r.height - item.height) : Int) : ℚ) /
            (((r.area : Int) : ℚ) + epsilon) ∧
    GuillotineAlgorithm.evaluate_free_rect .best_area_fit fr item =
      ((item.area : Int) : ℚ) / (((fr.area : Int) : ℚ) + epsilon) ∧
    |GuillotineAlgorithm.evaluate_free_rect .best_area_fit fr item -
      (1 - ((fr.area - item.area : Int) : ℚ) / ((fr.area : Int) : ℚ))| ≤ epsilon := by
  have hep : (0 : ℚ) < epsilon := by norm_num [epsilon]
  refine ⟨?_, ?_, ?_, ?_⟩
  · simp [ShelfAlgorithm.evaluate_shelf, hsh]
  · simp [MaxRectsAlgorithm.evaluate_rect, hr]
  · simp [GuillotineAlgorithm.evaluate_free_rect]
  · have hA' : (1 : ℚ) ≤ ((fr.area : Int) : ℚ) := by exact_mod_cast hA
    have hA0 : (0 : ℚ) < ((fr.area : Int) : ℚ) := by linarith
    have ha0 : (0 : ℚ) ≤ ((item.area : Int) : ℚ) := by
      have : (0 : Int) ≤ item.area := mul_nonneg hw hh
      exact_mod_cast this
    have haA : ((item.area : Int) : ℚ) ≤ ((fr.area : Int) : ℚ) := by
      have : item.area ≤ fr.area := by
        have := mul_le_mul hfw hfh hh (le_trans hw hfw)
        simpa [Item.area, FreeRectangle.area] using this
      exact_mod_cast this
    set A : ℚ := ((fr.area : Int) : ℚ) with hAdef
    set a : ℚ := ((item.area : Int) : ℚ) with hadef
    have hspec : 1 - ((fr.area - item.area : Int) : ℚ) / A = a / A := by
      push_cast
      rw [sub_div, div_self (ne_of_gt hA0)]
      ring
    have hcode : GuillotineAlgorithm.evaluate_free_rect .best_area_fit fr item =
        a / (A + epsilon) := by
      simp [GuillotineAlgorithm.evaluate_free_rect, hadef, hAdef]
    rw [hcode, hspec]
    have hAe : (0 : ℚ) < A + epsilon := by linarith
    have hle : a / (A + epsilon) ≤ a / A := by
      apply div_le_div_of_nonneg_left ha0 hA0
      linarith
    rw [abs_of_nonpos (by linarith)]
    have hgap : a / A - a / (A + epsilon) = a * epsilon / (A * (A + epsilon)) := by
      field_simp
      ring
    rw [neg_sub, hgap]
    rw [div_le_iff₀ (by positivity)]
    have : a ≤ A * (A + epsilon) := by nlinarith
    nlinarith

/-- C6 amended: in the shelf engine a pair that does not fit scores 0,
and a fitting pair scores strictly positive under next_fit, first_fit and
the best_* heuristics; under the worst_* heuristics a fitting zero-slack
pair also scores 0 (see the counterexample), so 0 is not reserved for
"does not fit". -/
theorem shelf_score_zero_iff_by_heuristic
    (heuristic : BinHeuristicType) (sh : Shelf) (item : Item)
    (hw : 0 < item.width) (hh : 0 < item.height)
    (haw : sh.available_width ≤ sh.width) :
    ((sh.check_item_fit item).1 = false →
      (ShelfAlgorithm.evaluate_shelf heuristic sh item).1 = 0) ∧
    ((sh.check_item_fit item).1 = true →
      heuristic ≠ .worst_area_fit → heuristic ≠ .worst_width_fit →
      heuristic ≠ .worst_height_fit →
      0 < (ShelfAlgorithm.evaluate_shelf heuristic sh item).1) := by
  have hep : (0 : ℚ) < epsilon := by norm_num [epsilon]
  constructor
  · intro hf
    rcases h : sh.check_item_fit item with ⟨fits, nr⟩
    rw [h] at hf
    cases fits
    · simp [ShelfAlgorithm.evaluate_shelf, h]
    · simp at hf
  · intro hf h1 h2 h3
    rcases h : sh.check_item_fit item with ⟨fits, nr⟩
    rw [h] at hf
    cases fits
    case false => simp at hf
    case true =>
    -- bounds on the effective (possibly rotated) dimensions
    have heff : (if nr = true then item.rotate else item).width ≤ sh.available_width ∧
        (if nr = true then item.rotate else item).height ≤ sh.height ∧
        0 < (if nr = true then item.rotate else item).width ∧
        0 < (if nr = true then item.rotate else item).height := by
      cases nr
      · have hu := shelf_fit_unrotated h
        simpa using ⟨hu.1, hu.2, hw, hh⟩
      · have hr := shelf_fit_rotated h
        simpa [Item.rotate] using ⟨hr.2.1, hr.2.2, hh, hw⟩
    obtain ⟨hew, heh, hew0, heh0⟩ := heff
    set eff := if nr = true then item.rotate else item with heffdef
    have havail : (0 : Int) < sh.available_width := lt_of_lt_of_le hew0 hew
    have hheight : (0 : Int) < sh.height := lt_of_lt_of_le heh0 heh
    simp only [ShelfAlgorithm.evaluate_shelf, h]
    rcases heuristic with _ | _ | _ | _ | _ | _ | _ | _
    · norm_num
    · norm_num
    · -- best_area_fit
      apply score_pos_aux
      · push_cast [Shelf.area]
        have : (0 : ℚ) < (eff.width : ℚ) * (sh.height : ℚ) := by
          have h1 : (0 : ℚ) < (eff.width : ℚ) := by exact_mod_cast hew0
          have h2 : (0 : ℚ) < (sh.height : ℚ) := by exact_mod_cast hheight
          positivity
        nlinarith
      · have h2 : (0 : ℚ) < ((sh.area : Int) : ℚ) := by
          have : (0 : Int) < sh.area := mul_pos havail hheight
          exact_mod_cast this
        linarith
    · exact absurd rfl h1
    · -- best_width_fit
      apply score_pos_aux
      · have hww : (eff.width : ℚ) ≤ (sh.available_width : ℚ) := by exact_mod_cast hew
        have hw2 : (sh.available_width : ℚ) ≤ (sh.width : ℚ) := by exact_mod_cast haw
        have hw0 : (0 : ℚ) < (eff.width : ℚ) := by exact_mod_cast hew0
        push_cast
        linarith
      · have : (0 : ℚ) < (sh.width : ℚ) := by
          have : (0 : Int) < sh.width := lt_of_lt_of_le havail haw
          exact_mod_cast this
        linarith
    · exact absurd rfl h2
    · -- best_height_fit
      apply score_pos_aux
      · have hh2 : (eff.height : ℚ) ≤ (sh.height : ℚ) := by exact_mod_cast heh
        have hh0 : (0 : ℚ) < (eff.height : ℚ) := by exact_mod_cast heh0
        push_cast
        linarith
      · have : (0 : ℚ) < (sh.height : ℚ) := by exact_mod_cast hheight
        linarith
    · exact absurd rfl h3

/-- Witness for the amended C5 theorem at concrete engine states. -/
theorem best_area_fit_scores_by_engine_witness :
    (ShelfAlgorithm.evaluate_shelf .best_area_fit cshelf citem).1 =
      1 - (((cshelf.available_width - citem.width) * cshelf.height : Int) : ℚ) /
            (((cshelf.area : Int) : ℚ) + epsilon) ∧
    (MaxRectsAlgorithm.evaluate_rect .best_area_fit crect citem).1 =
      1 - (((crect.width - citem.width) * (crect.height - citem.height) : Int) : ℚ) /
            (((crect.area : Int) : ℚ) + epsilon) ∧
    GuillotineAlgorithm.evaluate_free_rect .best_area_fit cfree citem =
      ((citem.area : Int) : ℚ) / (((cfree.area : Int) : ℚ) + epsilon) ∧
    |GuillotineAlgorithm.evaluate_free_rect .best_area_fit cfree citem -
      (1 - ((cfree.area - citem.area : Int) : ℚ) / ((cfree.area : Int) : ℚ))| ≤ epsilon :=
  best_area_fit_scores_by_engine cshelf crect cfree citem (by decide) (by decide)
    (by decide) (by decide) (by decide) (by decide) (by decide)

/-- Witness for the amended C6 theorem: a concrete fitting pair scores
strictly positively under `best_area_fit`. -/
theorem shelf_score_zero_iff_by_heuristic_witness :
    0 < (ShelfAlgorithm.evaluate_shelf .best_area_fit cshelf citem).1 :=
  (shelf_score_zero_iff_by_heuristic .best_area_fit cshelf citem (by decide) (by decide)
    (by decide)).2 (by decide) (by decide) (by decide) (by decide)

/-- The rectangle returned by the guillotine search loop is the running
best or one of the scanned rectangles. -/
theorem search_rects_mem (rotation : Bool) (heuristic : BinHeuristicType) (item : Item) :
    ∀ (l : List FreeRectangle) (best : Option FreeRectangle) (sc : ℚ) (r : FreeRectangle),
      GuillotineAlgorithm.search_rects rotation heuristic item l best sc = some r →
      best = some r ∨ r ∈ l
  | [], _, _, r, h => Or.inl h
  | rect :: rest, best, sc, r, h => by
    simp only [GuillotineAlgorithm.search_rects] at h
    rcases hc : Guillotine.check_rect_fit rotation rect item with ⟨fits, nr⟩
    rw [hc] at h
    cases fits
    · rcases search_rects_mem rotation heuristic item rest best sc r h with h' | h'
      · exact Or.inl h'
      · exact Or.inr (List.mem_cons_of_mem _ h')
    · dsimp only at h
      by_cases hlt : sc < GuillotineAlgorithm.evaluate_free_rect heuristic rect item <;>
        simp only [hlt, if_pos, if_neg, not_false_iff] at h
      · split at h
        · cases h; exact Or.inr (List.mem_cons_self _ _)
        · rcases search_rects_mem rotation heuristic item rest _ _ r h with h' | h'
          · cases h'; exact Or.inr (List.mem_cons_self _ _)
          · exact Or.inr (List.mem_cons_of_mem _ h')
      · split at h
        · exact Or.inl h
        · rcases search_rects_mem rotation heuristic item rest _ _ r h with h' | h'
          · exact Or.inl h'
          · exact Or.inr (List.mem_cons_of_mem _ h')

/-- Erasing a member subtracts its value from a mapped sum. -/
theorem sum_map_erase_of_mem (f : FreeRectangle → Int) :
    ∀ (l : List FreeRectangle) (a : FreeRectangle), a ∈ l →
      ((l.erase a).map f).sum = (l.map f).sum - f a
  | [], a, h => absurd h (List.not_mem_nil a)
  | b :: l, a, h => by
    by_cases hba : b = a
    · subst hba
      simp [List.erase_cons_head]
    · have hmem : a ∈ l := by
        rcases List.mem_cons.1 h with h' | h'
        · exact absurd h'.symm hba
        · exact h'
      rw [List.erase_cons_tail]
      · simp only [List.map_cons, List.sum_cons, sum_map_erase_of_mem f l a hmem]
        ring
      · simp [hba]

/-- A rectangle fit reported `(True, nr)` bounds the effective (possibly
rotated) item dimensions by the rectangle's. -/
theorem rect_fit_bounds {rotation : Bool} {rect : FreeRectangle} {item : Item} {nr : Bool}
    (h : Guillotine.check_rect_fit rotation rect item = (true, nr)) :
    (if nr = true then item.rotate else item).width ≤ rect.width ∧
    (if nr = true then item.rotate else item).height ≤ rect.height := by
  simp only [Guillotine.check_rect_fit] at h
  split at h
  · next hc =>
    simp only [Bool.and_eq_true, decide_eq_true_eq] at hc
    cases h
    simpa using hc
  · split at h
    · next hc =>
      simp only [Bool.and_eq_true, decide_eq_true_eq] at hc
      cases h
      simpa [Item.rotate] using ⟨hc.1.2, hc.2⟩
    · simp at h

/-- The horizontal split children account for exactly the area of the
parent rectangle minus the placed item. -/
theorem split_along_axis_area (rect : FreeRectangle) (item : Item)
    (h1 : 0 < item.width) (h2 : 0 < item.height)
    (h3 : item.width ≤ rect.width) (h4 : item.height ≤ rect.height) :
    ((Guillotine.split_along_axis rect item true).map FreeRectangle.area).sum =
      rect.area - item.area := by
  have hrw : 0 < rect.width := lt_of_lt_of_le h1 h3
  have hexp : Guillotine.split_along_axis rect item true =
      (if 0 < rect.width - item.width ∧ 0 < item.height then
        [({ width := rect.width - item.width, height := item.height,
            x := rect.x + item.width, y := rect.y } : FreeRectangle)]
       else []) ++
      (if 0 < rect.width ∧ 0 < rect.height - item.height then
        [({ width := rect.width, height := rect.height - item.height,
            x := rect.x, y := rect.y + item.height } : FreeRectangle)]
       else []) := by
    simp only [Guillotine.split_along_axis, if_true, gt_iff_lt]
  rw [hexp]
  rcases lt_or_eq_of_le h3 with h3' | h3' <;> rcases lt_or_eq_of_le h4 with h4' | h4'
  · rw [if_pos ⟨by omega, h2⟩, if_pos ⟨hrw, by omega⟩]
    simp only [List.map_append, List.map_cons, List.map_nil, List.sum_append,
      List.sum_cons, List.sum_nil, FreeRectangle.area, Item.area]
    ring
  · rw [if_pos ⟨by omega, h2⟩, if_neg (by omega)]
    simp only [List.map_append, List.map_cons, List.map_nil, List.sum_append,
      List.sum_cons, List.sum_nil, List.append_nil, FreeRectangle.area, Item.area]
    rw [← h4']
    ring
  · rw [if_neg (by omega), if_pos ⟨hrw, by omega⟩]
    simp only [List.map_append, List.map_cons, List.map_nil, List.sum_append,
      List.sum_cons, List.sum_nil, List.nil_append, FreeRectangle.area, Item.area]
    rw [← h3']
    ring
  · rw [if_neg (by omega), if_neg (by omega)]
    simp only [List.append_nil, List.map_nil, List.sum_nil, FreeRectangle.area, Item.area]
    rw [← h3', ← h4']
    ring

/-- Rotation preserves the item's area. -/
theorem Item.rotate_area (i : Item) : i.rotate.area = i.area := by
  simp [Item.rotate, Item.area, mul_comm]

/-- `Guillotine.insert_item` preserves the free-space accounting
invariant when the chosen rectangle belongs to the state. -/
theorem insert_item_inv {g : Guillotine} {rect : FreeRectangle} {item : Item}
    {ok : Bool} {g' : Guillotine} {item' : Item}
    (hmem : rect ∈ g.free_rects)
    (hw : 0 < item.width) (hh : 0 < item.height)
    (hinv : GuillotineInv g)
    (h : g.insert_item rect item = (ok, g', item')) :
    GuillotineInv g' := by
  rcases hc : Guillotine.check_rect_fit g.rotation rect item with ⟨fits, nr⟩
  simp only [Guillotine.insert_item, hc] at h
  cases fits
  · cases h; exact hinv
  · have hb := rect_fit_bounds hc
    set eff := if nr = true then item.rotate else item with heffdef
    have hew : 0 < eff.width := by
      cases nr <;> simp [heffdef, Item.rotate, hw, hh]
    have heh : 0 < eff.height := by
      cases nr <;> simp [heffdef, Item.rotate, hw, hh]
    have harea : eff.area = item.area := by
      cases nr <;> simp [heffdef, Item.rotate_area]
    dsimp only at h
    cases h
    unfold GuillotineInv at hinv ⊢
    simp only [List.map_append, List.sum_append, List.map_cons, List.sum_cons,
      List.map_nil, List.sum_nil]
    rw [sum_map_erase_of_mem FreeRectangle.area g.free_rects rect hmem]
    have hplaced : ({ eff with x := rect.x, y := rect.y } : Item).area = item.area := by
      rw [← harea]; simp [Item.area]
    have hsplit := split_along_axis_area rect ({ eff with x := rect.x, y := rect.y })
      (by simpa using hew) (by simpa using heh) (by simpa using hb.1) (by simpa using hb.2)
    unfold Guillotine.split_free_rect
    rw [hsplit, hplaced]
    omega

/-- C8: the guillotine free-space identity.  A freshly initialized per-bin
state satisfies Σ free-rect area + Σ item area = bin area, and
`pack_item` preserves the identity for the touched bin (failures leave it
unchanged), so it holds after every successful `pack_item`. -/
theorem guillotine_free_space_accounting
    (rotation : Bool) (heuristic : BinHeuristicType)
    (bin_guillotine : Nat → Option Guillotine) (bin : Bin) (item : Item)
    (hw : 0 < item.width) (hh : 0 < item.height)
    (hinv : ∀ g, bin_guillotine bin.id = some g → GuillotineInv g) :
    ∀ g', (GuillotineAlgorithm.pack_item rotation heuristic bin_guillotine bin item).2.1
        bin.id = some g' → GuillotineInv g' := by
  intro g' hg'
  have hinit : GuillotineInv (GuillotineAlgorithm.initialize_bin rotation bin) := by
    simp [GuillotineInv, GuillotineAlgorithm.initialize_bin, FreeRectangle.area]
  have hst : ∀ g₀, (match bin_guillotine bin.id with
      | some g => g
      | none => GuillotineAlgorithm.initialize_bin rotation bin) = g₀ → GuillotineInv g₀ := by
    intro g₀ hdef
    rcases hbg : bin_guillotine bin.id with _ | g
    · rw [hbg] at hdef; cases hdef; exact hinit
    · rw [hbg] at hdef; cases hdef; exact hinv g hbg
  simp only [GuillotineAlgorithm.pack_item] at hg'
  set g₀ := (match bin_guillotine bin.id with
    | some g => g
    | none => GuillotineAlgorithm.initialize_bin rotation bin) with hg₀def
  have hg₀ : GuillotineInv g₀ := hst g₀ rfl
  rcases hfind : GuillotineAlgorithm.find_best_free_rect rotation heuristic g₀ item with
    _ | rect
  · rw [hfind] at hg'
    simp only [mapSet, if_pos rfl] at hg'
    exact Option.some.inj hg' ▸ hg₀
  · have hmem : rect ∈ g₀.free_rects := by
      rcases search_rects_mem rotation heuristic item g₀.free_rects none 0 rect hfind with
        h' | h'
      · cases h'
      · exact h'
    rw [hfind] at hg'
    rcases hins : g₀.insert_item rect item with ⟨ok, g₁, item₁⟩
    simp only [hins] at hg'
    have hg₁ : GuillotineInv g₁ := insert_item_inv hmem hw hh hg₀ hins
    cases ok <;> simp only [mapSet, if_pos rfl] at hg' <;>
      exact Option.some.inj hg' ▸ hg₁

/-- Witness for C8: packing a 4×6 item into a fresh 10×10 guillotine bin
keeps Σ free + Σ items = 100. -/
theorem guillotine_free_space_accounting_witness :
    GuillotineInv
      { height := 10, width := 10, area := 100, free_area := 76,
        free_rects := [⟨6, 6, 4, 0⟩, ⟨10, 4, 0, 6⟩],
        items := [⟨4, 6, false, 0, 0, "g"⟩], rotation := false, merge := false } :=
  guillotine_free_space_accounting false .best_area_fit (fun _ => none) ⟨10, 10, [], 0⟩
    ⟨4, 6, false, -1, -1, "g"⟩ (by decide) (by decide) (fun g h => by cases h) _
    (by with_unfolding_all decide)

/-- An unpackable item fails the whole-bin fit test. -/
theorem check_item_fit_of_unpackable {rotation : Bool} {bin : Bin} {item : Item}
    (hun : Unpackable bin.width bin.height rotation item) :
    PackingAlgorithm.check_item_fit rotation bin item = (false, false) := by
  rcases hun with ⟨h1, h2⟩
  simp only [PackingAlgorithm.check_item_fit]
  have hb1 : ¬((decide (item.width ≤ bin.width) && decide (item.height ≤ bin.height)) = true) := by
    simp only [Bool.and_eq_true, decide_eq_true_eq]
    exact h1
  have hb2 : ¬((rotation && decide (item.height ≤ bin.width) &&
      decide (item.width ≤ bin.height)) = true) := by
    simp only [Bool.and_eq_true, decide_eq_true_eq, and_assoc]
    exact h2
  rw [if_neg hb1, if_neg hb2]

/-- The shelf bin-search loop returns nothing when every bin scores 0. -/
theorem shelf_search_bins_none (rotation : Bool) (heuristic : BinHeuristicType)
    (bin_shelves : Nat → Option ShelfBinState) :
    ∀ (bins : List Bin) (item : Item) (i : Nat),
      (∀ b ∈ bins, (ShelfAlgorithm.evaluate_bin rotation heuristic bin_shelves b item).1 = 0) →
      ShelfAlgorithm.search_bins rotation heuristic bin_shelves bins item i none 0 = none
  | [], _, _, _ => rfl
  | bin :: rest, item, i, hall => by
    have hsnd := evaluate_bin_snd rotation heuristic bin_shelves bin item
    rcases he : ShelfAlgorithm.evaluate_bin rotation heuristic bin_shelves bin item with
      ⟨score, item2⟩
    have hzero : score = 0 := by
      have := hall bin (List.mem_cons_self _ _)
      rw [he] at this
      exact this
    have hitem : item2 = item := by rw [← hsnd, he]
    simp only [ShelfAlgorithm.search_bins, he, hzero, hitem, lt_self_iff_false, if_false]
    norm_num
    exact shelf_search_bins_none rotation heuristic bin_shelves rest item (i + 1)
      (fun b hb => hall b (List.mem_cons_of_mem _ hb))

/-- The skyline bin-search loop returns nothing when every bin scores
`Some 0`. -/
theorem skyline_search_bins_none (rotation : Bool) (heuristic : BinHeuristicType)
    (bin_skyline : Nat → Option SkylineBinState) :
    ∀ (bins : List Bin) (item : Item) (i : Nat),
      (∀ b ∈ bins, SkylineAlgorithm.evaluate_bin rotation heuristic bin_skyline b item = some 0) →
      SkylineAlgorithm.search_bins rotation heuristic bin_skyline bins item i none 0 = none
  | [], _, _, _ => rfl
  | bin :: rest, item, i, hall => by
    have he := hall bin (List.mem_cons_self _ _)
    simp only [SkylineAlgorithm.search_bins, he, lt_self_iff_false, if_false]
    exact skyline_search_bins_none rotation heuristic bin_skyline rest item (i + 1)
      (fun b hb => hall b (List.mem_cons_of_mem _ hb))

/-- The skyline fit test above the single initial segment fails when the
tried orientation exceeds the bin. -/
theorem check_fit_single_none {bin : Bin} {iw ih : Int}
    (h : bin.width < iw ∨ bin.height < ih) :
    SkylineAlgorithm.check_fit bin [⟨0, 0, bin.width⟩] iw ih 0 = none := by
  simp only [SkylineAlgorithm.check_fit, List.get?_cons_zero]
  rcases h with h | h
  · rw [if_pos (by omega)]
  · by_cases h1 : (0 : Int) + iw > bin.width
    · rw [if_pos h1]
    · rw [if_neg h1, if_pos (by omega)]

/-- An unpackable item produces no skyline placement candidate on a fresh
bin. -/
theorem candidates_nil_of_unpackable {rotation : Bool} {heuristic : BinHeuristicType}
    {bin : Bin} {item : Item}
    (hun : Unpackable bin.width bin.height rotation item) :
    SkylineAlgorithm.candidates rotation heuristic bin [⟨0, 0, bin.width⟩] item = [] := by
  rcases hun with ⟨h1, h2⟩
  have hbase : SkylineAlgorithm.check_fit bin [⟨0, 0, bin.width⟩] item.width item.height 0
      = none := check_fit_single_none (by omega)
  simp only [SkylineAlgorithm.candidates, List.length_cons, List.length_nil,
    List.range_succ, List.range_zero, List.nil_append, List.flatMap_cons,
    List.flatMap_nil, List.append_nil]
  cases hrot : rotation
  · simp [hbase]
  · have hr : SkylineAlgorithm.check_fit bin [⟨0, 0, bin.width⟩] item.height item.width 0
        = none := by
      apply check_fit_single_none
      subst hrot
      by_contra hcon
      push_neg at hcon
      exact h2 ⟨rfl, hcon.1, hcon.2⟩
    simp [hbase, hr]

/-- A shelf `pack_item` on a fresh bin fails for an unpackable item and
leaves the bin untouched. -/
theorem shelf_pack_item_unpackable {rotation : Bool} {heuristic : BinHeuristicType}
    {bin_shelves : Nat → Option ShelfBinState} {bin : Bin} {item : Item}
    (hnone : bin_shelves bin.id = none)
    (hun : Unpackable bin.width bin.height rotation item) :
    (ShelfAlgorithm.pack_item rotation heuristic bin_shelves bin item).1 = false ∧
    (ShelfAlgorithm.pack_item rotation heuristic bin_shelves bin item).2.2.1 = bin := by
  rcases hun with ⟨h1, h2⟩
  by_cases hcc : ShelfAlgorithm.can_create_shelf
      { shelves := [], available_height := bin.height } item = true
  case neg =>
    simp [ShelfAlgorithm.pack_item, hnone, ShelfAlgorithm.find_best_shelf,
      ShelfAlgorithm.initialize_bin, ShelfAlgorithm.search_shelves,
      ShelfAlgorithm.create_shelf, hcc]
  case pos =>
    have hh : item.height ≤ bin.height := by
      simpa [ShelfAlgorithm.can_create_shelf] using hcc
    have hw : ¬(item.width ≤ bin.width) := fun hwle => h1 ⟨hwle, hh⟩
    have hfit : ∀ v : Int,
        Shelf.check_item_fit ⟨item.height, bin.width, bin.width, v, [], rotation⟩ item =
          (false, false) := by
      intro v
      simp only [Shelf.check_item_fit]
      have hb1 : ¬((decide (item.width ≤ bin.width) &&
          decide (item.height ≤ item.height)) = true) := by
        simp only [Bool.and_eq_true, decide_eq_true_eq]
        intro hc
        exact hw hc.1
      have hb2 : ¬((rotation && decide (item.height ≤ bin.width) &&
          decide (item.width ≤ item.height)) = true) := by
        simp only [Bool.and_eq_true, decide_eq_true_eq, and_assoc]
        intro hc
        exact h2 ⟨hc.1, hc.2.1, le_trans hc.2.2 hh⟩
      rw [if_neg hb1, if_neg hb2]
    simp [ShelfAlgorithm.pack_item, hnone, ShelfAlgorithm.find_best_shelf,
      ShelfAlgorithm.initialize_bin, ShelfAlgorithm.search_shelves,
      ShelfAlgorithm.create_shelf, hcc, Shelf.insert_item, hfit]

/-- A skyline `pack_item` on a fresh bin fails for an unpackable item and
leaves the bin untouched. -/
theorem skyline_pack_item_unpackable {rotation : Bool} {heuristic : BinHeuristicType}
    {bin_skyline : Nat → Option SkylineBinState} {bin : Bin} {item : Item}
    (hnone : bin_skyline bin.id = none)
    (hun : Unpackable bin.width bin.height rotation item) :
    (SkylineAlgorithm.pack_item rotation heuristic bin_skyline bin item).1 = false ∧
    (SkylineAlgorithm.pack_item rotation heuristic bin_skyline bin item).2.2.1 = bin := by
  have hcand := @candidates_nil_of_unpackable rotation heuristic bin item hun
  simp only [SkylineAlgorithm.pack_item, hnone, SkylineAlgorithm.initialize_bin,
    SkylineAlgorithm.find_best_score, hcand]
  simp

/-- C10: an item that exceeds the bin size even after the allowed
rotation makes `find_best_bin` return nothing, so the manager allocates
and appends one fresh bin; `pack_item` then fails on it, the failure is
discarded and the appended bin stays empty. -/
theorem unpackable_item_appends_one_empty_bin
    (m : BinManager) (item : Item)
    (hdims : ∀ b ∈ m.bins, b.width = m.bin_width ∧ b.height = m.bin_height)
    (hfresh : m.fresh_state)
    (hun : Unpackable m.bin_width m.bin_height m.rotation item) :
    (m.step item).1.bins =
      m.bins ++ [{ width := m.bin_width, height := m.bin_height, items := [],
                   id := m.next_bin_id }] ∧
    (m.step item).2 = false := by
  have hunb : ∀ b ∈ m.bins, Unpackable b.width b.height m.rotation item := by
    intro b hb
    rcases hdims b hb with ⟨hbw, hbh⟩
    rw [hbw, hbh]
    exact hun
  rcases halg : m.algorithm with bin_shelves | bin_skyline
  · have hfind : (PackingAlgorithmState.shelf bin_shelves).find_best_bin m.rotation
        m.heuristic m.bins item = none := by
      simp only [PackingAlgorithmState.find_best_bin, ShelfAlgorithm.find_best_bin]
      apply shelf_search_bins_none
      intro b hb
      have := check_item_fit_of_unpackable (hunb b hb)
      simp [ShelfAlgorithm.evaluate_bin, this]
    have hnone : bin_shelves m.next_bin_id = none := by
      have := hfresh
      unfold BinManager.fresh_state at this
      rw [halg] at this
      exact this m.next_bin_id le_rfl
    have hpack := @shelf_pack_item_unpackable m.rotation m.heuristic bin_shelves
      { width := m.bin_width, height := m.bin_height, items := [],
        id := m.next_bin_id } item hnone hun
    rcases hp : ShelfAlgorithm.pack_item m.rotation m.heuristic bin_shelves
        { width := m.bin_width, height := m.bin_height, items := [],
          id := m.next_bin_id } item with ⟨ok, map', bin', item'⟩
    rw [hp] at hpack
    simp only at hpack
    simp only [BinManager.step, halg, hfind, PackingAlgorithmState.pack_item, hp]
    simp [hpack.1, hpack.2]
  · have hfind : (PackingAlgorithmState.skyline bin_skyline).find_best_bin m.rotation
        m.heuristic m.bins item = none := by
      simp only [PackingAlgorithmState.find_best_bin, SkylineAlgorithm.find_best_bin]
      apply skyline_search_bins_none
      intro b hb
      have := check_item_fit_of_unpackable (hunb b hb)
      simp [SkylineAlgorithm.evaluate_bin, this]
    have hnone : bin_skyline m.next_bin_id = none := by
      have := hfresh
      unfold BinManager.fresh_state at this
      rw [halg] at this
      exact this m.next_bin_id le_rfl
    have hpack := @skyline_pack_item_unpackable m.rotation m.heuristic bin_skyline
      { width := m.bin_width, height := m.bin_height, items := [],
        id := m.next_bin_id } item hnone hun
    rcases hp : SkylineAlgorithm.pack_item m.rotation m.heuristic bin_skyline
        { width := m.bin_width, height := m.bin_height, items := [],
          id := m.next_bin_id } item with ⟨ok, map', bin', item'⟩
    rw [hp] at hpack
    simp only at hpack
    simp only [BinManager.step, halg, hfind, PackingAlgorithmState.pack_item, hp]
    simp [hpack.1, hpack.2]

/-- Witness for C10: an 11×11 item against the fresh 10×10 shelf manager
appends exactly one empty bin and reports failure only through the
discarded flag. -/
theorem unpackable_item_appends_one_empty_bin_witness :
    (mgr10shelf.step ⟨11, 11, false, -1, -1, "big"⟩).1.bins =
      mgr10shelf.bins ++ [{ width := 10, height := 10, items := [], id := 0 }] ∧
    (mgr10shelf.step ⟨11, 11, false, -1, -1, "big"⟩).2 = false :=
  unpackable_item_appends_one_empty_bin mgr10shelf ⟨11, 11, false, -1, -1, "big"⟩
    (by intro b hb; cases hb) (fun k _ => rfl) ⟨by decide, by decide⟩

/-- `Shelf.insert_item` never changes the item's identifier. -/
theorem insert_item_id {sh : Shelf} {item : Item} {ok : Bool} {sh' : Shelf} {item' : Item}
    (h : sh.insert_item item = (ok, sh', item')) : item'.id = item.id := by
  rcases hc : sh.check_item_fit item with ⟨fits, nr⟩
  simp only [Shelf.insert_item, hc] at h
  cases fits
  · cases h; rfl
  · cases nr <;> (cases h; simp [Item.rotate])

/-- Effect of a shelf `pack_item` on the bin: on success exactly the
returned item (same id as the input) is appended; on failure the bin is
untouched. -/
theorem shelf_pack_item_bin {rotation : Bool} {heuristic : BinHeuristicType}
    {bin_shelves : Nat → Option ShelfBinState} {bin : Bin} {item : Item}
    {ok : Bool} {map' : Nat → Option ShelfBinState} {bin' : Bin} {item' : Item}
    (h : ShelfAlgorithm.pack_item rotation heuristic bin_shelves bin item =
      (ok, map', bin', item')) :
    (ok = true → bin' = { bin with items := bin.items ++ [item'] } ∧ item'.id = item.id) ∧
    (ok = false → bin' = bin) := by
  simp only [ShelfAlgorithm.pack_item] at h
  set st := (match bin_shelves bin.id with
    | some st => st
    | none => ShelfAlgorithm.initialize_bin bin) with hst
  rcases hf : ShelfAlgorithm.find_best_shelf rotation heuristic bin st item with ⟨oi, st'⟩
  simp only [hf] at h
  rcases oi with _ | i
  · cases h
    exact ⟨(fun hc => nomatch hc), (fun _ => rfl)⟩
  · rcases hins : (st'.shelves.getD i ⟨0, 0, 0, 0, [], false⟩).insert_item item with
      ⟨iok, sh', item₂⟩
    simp only [hins] at h
    cases iok
    · cases h
      exact ⟨(fun hc => nomatch hc), (fun _ => rfl)⟩
    · cases h
      exact ⟨(fun _ => ⟨rfl, insert_item_id hins⟩), (fun hc => nomatch hc)⟩

/-- Effect of a skyline `pack_item` on the bin: on success exactly the
returned item (same id as the input) is appended; on failure the bin is
untouched. -/
theorem skyline_pack_item_bin {rotation : Bool} {heuristic : BinHeuristicType}
    {bin_skyline : Nat → Option SkylineBinState} {bin : Bin} {item : Item}
    {ok : Bool} {map' : Nat → Option SkylineBinState} {bin' : Bin} {item' : Item}
    (h : SkylineAlgorithm.pack_item rotation heuristic bin_skyline bin item =
      (ok, map', bin', item')) :
    (ok = true → bin' = { bin with items := bin.items ++ [item'] } ∧ item'.id = item.id) ∧
    (ok = false → bin' = bin) := by
  simp only [SkylineAlgorithm.pack_item] at h
  set st := (match bin_skyline bin.id with
    | some st => st
    | none => SkylineAlgorithm.initialize_bin bin) with hst
  rcases hf : SkylineAlgorithm.find_best_score rotation heuristic bin st.skyline item with
    _ | best
  · simp only [hf] at h
    cases h
    exact ⟨(fun hc => nomatch hc), (fun _ => rfl)⟩
  · simp only [hf] at h
    cases h
    refine ⟨(fun _ => ⟨rfl, ?_⟩), (fun hc => nomatch hc)⟩
    cases best.rotated <;> simp [Item.rotate]

/-- Effect of a dispatched `pack_item` on the bin. -/
theorem pack_item_bin_effect {alg : PackingAlgorithmState} {rotation : Bool}
    {heuristic : BinHeuristicType} {bin : Bin} {item : Item}
    {ok : Bool} {alg' : PackingAlgorithmState} {bin' : Bin} {item' : Item}
    (h : alg.pack_item rotation heuristic bin item = (ok, alg', bin', item')) :
    (ok = true → bin' = { bin with items := bin.items ++ [item'] } ∧ item'.id = item.id) ∧
    (ok = false → bin' = bin) := by
  cases alg
  case shelf bin_shelves =>
    simp only [PackingAlgorithmState.pack_item] at h
    rcases hp : ShelfAlgorithm.pack_item rotation heuristic bin_shelves bin item with
      ⟨ok₂, m₂, b₂, i₂⟩
    simp only [hp] at h
    cases h
    exact shelf_pack_item_bin hp
  case skyline bin_skyline =>
    simp only [PackingAlgorithmState.pack_item] at h
    rcases hp : SkylineAlgorithm.pack_item rotation heuristic bin_skyline bin item with
      ⟨ok₂, m₂, b₂, i₂⟩
    simp only [hp] at h
    cases h
    exact skyline_pack_item_bin hp

/-- Replacing the bin found at index `i` changes the multiset of placed
ids by exactly the difference of the two bins' item lists. -/
theorem set_flatten_multiset :
    ∀ (bins : List Bin) (i : Nat) (bin bin' : Bin), bins.get? i = some bin →
      ((((bins.set i bin').map fun b => b.items.map Item.id).flatten : List String) :
          Multiset String) + (bin.items.map Item.id : List String) =
        (((bins.map fun b => b.items.map Item.id).flatten : List String) : Multiset String) +
          (bin'.items.map Item.id : List String)
  | [], i, bin, bin', h => by simp at h
  | b :: rest, 0, bin, bin', h => by
    simp only [List.get?_cons_zero, Option.some.injEq] at h
    subst h
    simp only [List.set_cons_zero, List.map_cons, List.flatten_cons, ← Multiset.coe_add]
    abel
  | b :: rest, i + 1, bin, bin', h => by
    simp only [List.get?_cons_succ] at h
    have ih := set_flatten_multiset rest i bin bin' h
    simp only [List.set_cons_succ, List.map_cons, List.flatten_cons, ← Multiset.coe_add]
    rw [add_assoc, add_assoc, ih]

/-- One manager step adds the packed item's id to exactly one bin, or
adds nothing when packing failed. -/
theorem step_placed_ids (m : BinManager) (item : Item) :
    ((m.step item).1.placed_ids : Multiset String) =
      (m.placed_ids : Multiset String) +
        (if (m.step item).2 = true then {item.id} else 0) := by
  rcases hs : m.step item with ⟨m', ok⟩
  simp only
  simp only [BinManager.step] at hs
  rcases hfind : m.algorithm.find_best_bin m.rotation m.heuristic m.bins item with _ | i
  · simp only [hfind] at hs
    rcases hp : m.algorithm.pack_item m.rotation m.heuristic
        { width := m.bin_width, height := m.bin_height, items := [], id := m.next_bin_id }
        item with ⟨ok₂, alg', bin', item'⟩
    simp only [hp] at hs
    cases hs
    have he := pack_item_bin_effect hp
    cases ok
    · have hb := he.2 rfl
      subst hb
      simp [BinManager.placed_ids, ← Multiset.coe_add]
    · obtain ⟨hb, hid⟩ := he.1 rfl
      subst hb
      simp [BinManager.placed_ids, hid, ← Multiset.coe_add]
  · simp only [hfind] at hs
    rcases hget : m.bins.get? i with _ | bin
    · simp only [hget] at hs
      cases hs
      simp
    · simp only [hget] at hs
      rcases hp : m.algorithm.pack_item m.rotation m.heuristic bin item with
        ⟨ok₂, alg', bin', item'⟩
      simp only [hp] at hs
      cases hs
      have he := pack_item_bin_effect hp
      have hsetm := set_flatten_multiset m.bins i bin bin' hget
      cases ok
      · have hb := he.2 rfl
        subst hb
        simp only [BinManager.placed_ids, Bool.false_eq_true, if_false, add_zero]
        exact add_right_cancel hsetm
      · obtain ⟨hb, hid⟩ := he.1 rfl
        subst hb
        simp only [BinManager.placed_ids, if_pos rfl]
        simp only [List.map_append, List.map_cons, List.map_nil, hid,
          ← Multiset.coe_add, Multiset.coe_singleton] at hsetm
        refine add_right_cancel (b := ((bin.items.map Item.id : List String) :
          Multiset String)) ?_
        rw [hsetm]
        abel

/-- The first component of `run` replays `execute`'s fold. -/
theorem run_fst (m : BinManager) :
    ∀ items : List Item, (m.run items).1 = items.foldl (fun m it => (m.step it).1) m
  | [] => rfl
  | it :: rest => by
    simp only [BinManager.run, List.foldl_cons]
    rcases hs : m.step it with ⟨m', ok⟩
    simp only [hs]
    exact run_fst m' rest

/-- `execute` is the first component of the instrumented `run` on the
sorted items. -/
theorem execute_eq_run (m : BinManager) (items : List Item) :
    m.execute items = (m.run (BinManager.sort_items m.sorting_strategy items)).1 := by
  rw [BinManager.execute, run_fst]

/-- Conservation along a run: placed ids plus dropped ids are exactly the
initial placed ids plus the processed ids. -/
theorem run_conservation (m : BinManager) :
    ∀ items : List Item,
      (((m.run items).1.placed_ids : List String) : Multiset String) +
          ((((m.run items).2.map Item.id : List String)) : Multiset String) =
        ((m.placed_ids : List String) : Multiset String) +
          ((items.map Item.id : List String) : Multiset String)
  | [] => by simp [BinManager.run]
  | it :: rest => by
    have hstep := step_placed_ids m it
    rcases hs : m.step it with ⟨m', ok⟩
    rw [hs] at hstep
    simp only at hstep
    have ih := run_conservation m' rest
    simp only [BinManager.run, hs]
    rcases hr : BinManager.run m' rest with ⟨mf, dropped⟩
    rw [hr] at ih
    simp only at ih ⊢
    cases ok
    · simp only [Bool.false_eq_true, if_false, add_zero] at hstep
      rw [hstep] at ih
      simp only [Bool.false_eq_true, if_false, List.map_cons, ← Multiset.cons_coe,
        ← Multiset.singleton_add]
      calc ((mf.placed_ids : List String) : Multiset String) +
            (({it.id} : Multiset String) + ((dropped.map Item.id : List String) :
              Multiset String)) =
            (((mf.placed_ids : List String) : Multiset String) +
              ((dropped.map Item.id : List String) : Multiset String)) +
              ({it.id} : Multiset String) := by abel
        _ = (((m.placed_ids : List String) : Multiset String) +
              ((rest.map Item.id : List String) : Multiset String)) +
              ({it.id} : Multiset String) := by rw [ih]
        _ = ((m.placed_ids : List String) : Multiset String) +
              (({it.id} : Multiset String) +
                ((rest.map Item.id : List String) : Multiset String)) := by abel
    · simp only [if_true] at hstep
      rw [hstep] at ih
      simp only [if_true, List.map_cons, ← Multiset.cons_coe, ← Multiset.singleton_add]
      rw [ih]
      abel

/-- Stable insertion permutes to a plain cons. -/
theorem sortedInsert_perm (key : Item → Int) (a : Item) :
    ∀ l : List Item, List.Perm (sortedInsert key a l) (a :: l)
  | [] => List.Perm.refl _
  | b :: l => by
    simp only [sortedInsert]
    split
    · exact List.Perm.refl _
    · exact ((sortedInsert_perm key a l).cons b).trans (List.Perm.swap a b l)

/-- The stable sort is a permutation of its input. -/
theorem stableSortByKey_perm (key : Item → Int) :
    ∀ l : List Item, List.Perm (stableSortByKey key l) l
  | [] => List.Perm.refl _
  | a :: l => (sortedInsert_perm key a _).trans ((stableSortByKey_perm key l).cons a)

/-- `sort_items` only reorders its input. -/
theorem sort_items_perm (s : SortStrategy) (items : List Item) :
    List.Perm (BinManager.sort_items s items) items := by
  unfold BinManager.sort_items
  split
  · exact stableSortByKey_perm _ _
  · exact List.Perm.refl _

/-- C2 amended: every item whose `pack_item` succeeds ends up in exactly
one returned bin, but an item whose `pack_item` fails (in particular one
exceeding the bin size even after the allowed rotation) is silently
dropped: `execute` discards the failure flag, surfaces nothing, and the
item appears in no bin.  Placed ids plus dropped ids are exactly the
input ids, counted with multiplicity. -/
theorem execute_conservation_up_to_silent_drops
    (m : BinManager) (items : List Item) (hempty : m.bins = []) :
    (((m.execute items).placed_ids : List String) : Multiset String) +
        ((((m.run (BinManager.sort_items m.sorting_strategy items)).2.map Item.id :
          List String)) : Multiset String) =
      ((items.map Item.id : List String) : Multiset String) := by
  rw [execute_eq_run]
  rw [run_conservation m (BinManager.sort_items m.sorting_strategy items)]
  have hplaced : m.placed_ids = [] := by simp [BinManager.placed_ids, hempty]
  rw [hplaced]
  have hperm : List.Perm ((BinManager.sort_items m.sorting_strategy items).map Item.id)
      (items.map Item.id) := (sort_items_perm _ _).map _
  rw [Multiset.coe_eq_coe.2 hperm]
  simp

/-- Witness for the amended C2 theorem: an unpackable 11×11 item followed
by a packable 5×5 item; the dropped list and the placed ids together give
back both input ids. -/
theorem execute_conservation_up_to_silent_drops_witness :
    (((mgr10shelf.execute [⟨11, 11, false, -1, -1, "a"⟩, ⟨5, 5, false, -1, -1, "b"⟩]).placed_ids :
        List String) : Multiset String) +
        ((((mgr10shelf.run (BinManager.sort_items mgr10shelf.sorting_strategy
            [⟨11, 11, false, -1, -1, "a"⟩, ⟨5, 5, false, -1, -1, "b"⟩])).2.map Item.id :
          List String)) : Multiset String) =
      (([(⟨11, 11, false, -1, -1, "a"⟩ : Item), ⟨5, 5, false, -1, -1, "b"⟩].map Item.id :
        List String) : Multiset String) :=
  execute_conservation_up_to_silent_drops mgr10shelf
    [⟨11, 11, false, -1, -1, "a"⟩, ⟨5, 5, false, -1, -1, "b"⟩] rfl

/-- A successful `create_shelf` keeps the per-bin state sound and appends
exactly the returned shelf. -/
theorem create_shelf_sound {rotation : Bool} {bin : Bin} {st : ShelfBinState}
    {item : Item} {sh : Shelf} {st' : ShelfBinState}
    (h : ShelfAlgorithm.create_shelf rotation bin st item = (some sh, st'))
    (hs : ShelfStateSound bin.width bin.height st)
    (hh : 0 < item.height) (hbw : 0 ≤ bin.width) :
    ShelfStateSound bin.width bin.height st' ∧ st'.shelves = st.shelves ++ [sh] := by
  simp only [ShelfAlgorithm.create_shelf] at h
  split at h
  · next hcc =>
    have hcc' : item.height ≤ st.available_height := by
      simpa [ShelfAlgorithm.can_create_shelf] using hcc
    rcases hs with ⟨h0, h1, h2⟩
    simp only [Prod.mk.injEq, Option.some.injEq] at h
    obtain ⟨hsh, hst⟩ := h
    subst hst
    subst hsh
    refine ⟨⟨by simp; omega, by simp; omega, ?_⟩, by simp⟩
    intro sh₂ hmem
    simp only [List.mem_append, List.mem_singleton] at hmem
    rcases hmem with hmem | hmem
    · have := h2 sh₂ hmem
      unfold ShelfSound at this ⊢
      simp only
      refine ⟨this.1, this.2.1, this.2.2.1, this.2.2.2.1, by omega⟩
    · subst hmem
      unfold ShelfSound
      dsimp only
      omega
  · simp at h

/-- The index returned by the shelf search loop is within range. -/
theorem search_shelves_lt (heuristic : BinHeuristicType) :
    ∀ (shelves : List Shelf) (item : Item) (i : Nat) (best : Option Nat) (sc : ℚ),
      (∀ j, best = some j → j < i) →
      ∀ j, ShelfAlgorithm.search_shelves heuristic shelves item i best sc = some j →
        j < i + shelves.length
  | [], _, i, best, _, hb, j, h => by
    have := hb j h
    simpa using this
  | sh :: rest, item, i, best, sc, hb, j, h => by
    simp only [ShelfAlgorithm.search_shelves] at h
    rcases he : ShelfAlgorithm.evaluate_shelf heuristic sh item with ⟨score, item₂⟩
    rw [he] at h
    dsimp only at h
    set best₂ := if sc < score then (some i, score) else (best, sc) with hb₂
    have hbest₂ : ∀ j, best₂.1 = some j → j < i + 1 := by
      intro j hj
      rw [hb₂] at hj
      split at hj
      · simp at hj; omega
      · have := hb j hj
        omega
    split at h
    · have := hbest₂ j h
      simp only [List.length_cons]
      omega
    · have := search_shelves_lt heuristic rest item₂ (i + 1) best₂.1 best₂.2 hbest₂ j h
      simp only [List.length_cons]
      omega

/-- A shelf chosen by `find_best_shelf` is a valid index into the
returned (possibly extended) state, which stays sound. -/
theorem find_best_shelf_spec {rotation : Bool} {heuristic : BinHeuristicType}
    {bin : Bin} {st : ShelfBinState} {item : Item} {i : Nat} {st' : ShelfBinState}
    (h : ShelfAlgorithm.find_best_shelf rotation heuristic bin st item = (some i, st'))
    (hs : ShelfStateSound bin.width bin.height st)
    (hh : 0 < item.height) (hbw : 0 ≤ bin.width) :
    ShelfStateSound bin.width bin.height st' ∧ i < st'.shelves.length := by
  simp only [ShelfAlgorithm.find_best_shelf] at h
  rcases hsearch : ShelfAlgorithm.search_shelves heuristic st.shelves item 0 none 0 with
    _ | j
  · rw [hsearch] at h
    rcases hcr : ShelfAlgorithm.create_shelf rotation bin st item with ⟨osh, st₂⟩
    rw [hcr] at h
    rcases osh with _ | sh
    · simp at h
    · simp only [Prod.mk.injEq, Option.some.injEq] at h
      obtain ⟨hi, hst⟩ := h
      subst hst
      have hcs := create_shelf_sound hcr hs hh hbw
      refine ⟨hcs.1, ?_⟩
      rw [← hi, hcs.2]
      simp
  · rw [hsearch] at h
    simp only [Prod.mk.injEq, Option.some.injEq] at h
    obtain ⟨hi, hst⟩ := h
    subst hst
    have hlt := search_shelves_lt heuristic st.shelves item 0 none 0 (by simp) j hsearch
    exact ⟨hs, by omega⟩

/-- A successful `insert_item` places the item inside the bin bounds and
keeps the shelf sound. -/
theorem insert_item_sound {W H avail_h : Int} {sh sh' : Shelf} {item item' : Item}
    (h : sh.insert_item item = (true, sh', item'))
    (hsh : ShelfSound W H avail_h sh) (hah : 0 ≤ avail_h)
    (hw : 0 < item.width) (hh : 0 < item.height) :
    ItemInBounds W H item' ∧ ShelfSound W H avail_h sh' := by
  rcases hc : sh.check_item_fit item with ⟨fits, nr⟩
  simp only [Shelf.insert_item, hc] at h
  cases fits
  · simp at h
  · have heff : (if nr = true then item.rotate else item).width ≤ sh.available_width ∧
        (if nr = true then item.rotate else item).height ≤ sh.height ∧
        0 < (if nr = true then item.rotate else item).width ∧
        0 < (if nr = true then item.rotate else item).height := by
      cases nr
      · have hu := shelf_fit_unrotated hc
        simpa using ⟨hu.1, hu.2, hw, hh⟩
      · have hrot := shelf_fit_rotated hc
        simpa [Item.rotate] using ⟨hrot.2.1, hrot.2.2, hh, hw⟩
    dsimp only at h
    cases h
    rcases hsh with ⟨e1, e2, e3, e4, e5⟩
    obtain ⟨f1, f2, f3, f4⟩ := heff
    constructor
    · unfold ItemInBounds
      cases nr <;> simp only [if_true, if_false] at f1 f2 f3 f4 ⊢ <;>
        simp [Item.rotate] at * <;> omega
    · unfold ShelfSound
      cases nr <;> simp only [if_true, if_false] at f1 f2 f3 f4 <;>
        simp [Item.rotate] at * <;> omega

/-- Reading back the key just written into a per-bin state map. -/
theorem mapSet_self {σ : Type} (m : Nat → Option σ) (k : Nat) (v : σ) :
    mapSet m k v k = some v := by simp [mapSet]

/-- Reading a different key of an updated per-bin state map. -/
theorem mapSet_ne {σ : Type} (m : Nat → Option σ) {k k' : Nat} (v : σ) (h : k' ≠ k) :
    mapSet m k v k' = m k' := by simp [mapSet, h]

/-- A `find_best_shelf` that chooses nothing leaves the state unchanged. -/
theorem find_best_shelf_none {rotation : Bool} {heuristic : BinHeuristicType}
    {bin : Bin} {st : ShelfBinState} {item : Item} {st' : ShelfBinState}
    (h : ShelfAlgorithm.find_best_shelf rotation heuristic bin st item = (none, st')) :
    st' = st := by
  simp only [ShelfAlgorithm.find_best_shelf] at h
  rcases hsearch : ShelfAlgorithm.search_shelves heuristic st.shelves item 0 none 0 with
    _ | j
  · rw [hsearch] at h
    rcases hcr : ShelfAlgorithm.create_shelf rotation bin st item with ⟨osh, st₂⟩
    rw [hcr] at h
    rcases osh with _ | sh
    · simp only [Prod.mk.injEq] at h
      have h₂ : st₂ = st := by
        simp only [ShelfAlgorithm.create_shelf] at hcr
        split at hcr
        · simp at hcr
        · simp only [Prod.mk.injEq] at hcr
          exact hcr.2.symm
      rw [← h.2, h₂]
    · simp at h
  · rw [hsearch] at h
    simp at h

/-- `ShelfAlgorithm.pack_item` keeps every stored per-bin state sound and
every item of the touched bin inside the bin bounds. -/
theorem shelf_pack_item_sound {rotation : Bool} {heuristic : BinHeuristicType}
    {bin_shelves : Nat → Option ShelfBinState} {bin : Bin} {item : Item}
    {ok : Bool} {map' : Nat → Option ShelfBinState} {bin' : Bin} {item' : Item}
    (h : ShelfAlgorithm.pack_item rotation heuristic bin_shelves bin item =
      (ok, map', bin', item'))
    (hstate : ∀ k st, bin_shelves k = some st → ShelfStateSound bin.width bin.height st)
    (hbin : ∀ it ∈ bin.items, ItemInBounds bin.width bin.height it)
    (hw : 0 < item.width) (hh : 0 < item.height)
    (hbw : 0 ≤ bin.width) (hbh : 0 ≤ bin.height) :
    (∀ k st, map' k = some st → ShelfStateSound bin.width bin.height st) ∧
    (∀ it ∈ bin'.items, ItemInBounds bin.width bin.height it) ∧
    bin'.width = bin.width ∧ bin'.height = bin.height := by
  simp only [ShelfAlgorithm.pack_item] at h
  set st₀ := (match bin_shelves bin.id with
    | some st => st
    | none => ShelfAlgorithm.initialize_bin bin) with hst₀def
  have hsound₀ : ShelfStateSound bin.width bin.height st₀ := by
    rcases hbg : bin_shelves bin.id with _ | st
    · simp only [hst₀def, hbg]
      refine ⟨?_, ?_, ?_⟩ <;> simp [ShelfAlgorithm.initialize_bin, hbh]
    · simp only [hst₀def, hbg]
      exact hstate _ _ hbg
  rcases hf : ShelfAlgorithm.find_best_shelf rotation heuristic bin st₀ item with ⟨oi, st'⟩
  simp only [hf] at h
  rcases oi with _ | i
  · cases h
    have hst' : st' = st₀ := find_best_shelf_none hf
    subst hst'
    refine ⟨?_, hbin, rfl, rfl⟩
    intro k st hk
    by_cases hkid : k = bin.id
    · subst hkid
      rw [mapSet_self] at hk
      exact Option.some.inj hk ▸ hsound₀
    · rw [mapSet_ne _ _ hkid] at hk
      exact hstate _ _ hk
  · obtain ⟨hsound', hlt⟩ := find_best_shelf_spec hf hsound₀ hh hbw
    rcases hins : (st'.shelves.getD i ⟨0, 0, 0, 0, [], false⟩).insert_item item with
      ⟨iok, sh', item₂⟩
    simp only [hins] at h
    have hshelf : ShelfSound bin.width bin.height st'.available_height
        (st'.shelves.getD i ⟨0, 0, 0, 0, [], false⟩) := by
      rw [List.getD_eq_getElem _ _ hlt]
      exact hsound'.2.2 _ (List.getElem_mem hlt)
    cases iok
    · cases h
      refine ⟨?_, hbin, rfl, rfl⟩
      intro k st hk
      by_cases hkid : k = bin.id
      · subst hkid
        rw [mapSet_self] at hk
        exact Option.some.inj hk ▸ hsound'
      · rw [mapSet_ne _ _ hkid] at hk
        exact hstate _ _ hk
    · have hiis := insert_item_sound hins hshelf hsound'.1 hw hh
      cases h
      refine ⟨?_, ?_, rfl, rfl⟩
      · intro k st hk
        by_cases hkid : k = bin.id
        · subst hkid
          rw [mapSet_self] at hk
          obtain rfl := Option.some.inj hk
          refine ⟨hsound'.1, hsound'.2.1, ?_⟩
          intro sh₂ hmem
          rcases List.mem_or_eq_of_mem_set hmem with hmem | hmem
          · exact hsound'.2.2 _ hmem
          · exact hmem ▸ hiis.2
        · rw [mapSet_ne _ _ hkid] at hk
          exact hstate _ _ hk
      · intro it hit
        simp only [List.mem_append, List.mem_singleton] at hit
        rcases hit with hit | hit
        · exact hbin _ hit
        · exact hit ▸ hiis.1

/-- The skyline fit loop only raises the resting height and never lets it
break the ceiling it checks. -/
theorem check_fit_loop_spec {bin : Bin} {ih : Int} :
    ∀ (rest : List SkylineSegment) (width y y' : Int),
      SkylineAlgorithm.check_fit_loop bin ih rest width y = some y' →
      y ≤ y' ∧ (y + ih ≤ bin.height → y' + ih ≤ bin.height)
  | [], width, y, y', h => by
    simp only [SkylineAlgorithm.check_fit_loop] at h
    split at h
    · simp at h
    · simp only [Option.some.injEq] at h
      subst h
      exact ⟨le_refl _, fun hy => hy⟩
  | seg :: rest, width, y, y', h => by
    simp only [SkylineAlgorithm.check_fit_loop] at h
    split at h
    · split at h
      · simp at h
      · next hno =>
        have ih2 := check_fit_loop_spec rest (width - seg.width) (max y seg.y) y' h
        refine ⟨le_trans (le_max_left _ _) ih2.1, fun _ => ih2.2 (by omega)⟩
    · simp only [Option.some.injEq] at h
      subst h
      exact ⟨le_refl _, fun hy => hy⟩

/-- A successful `_check_fit` pins the placement inside the bin. -/
theorem check_fit_spec {bin : Bin} {skyline : List SkylineSegment} {iw ih : Int}
    {i : Nat} {y : Int}
    (h : SkylineAlgorithm.check_fit bin skyline iw ih i = some y) :
    ∃ seg, skyline.get? i = some seg ∧ seg.x + iw ≤ bin.width ∧ seg.y ≤ y ∧
      y + ih ≤ bin.height := by
  simp only [SkylineAlgorithm.check_fit] at h
  rcases hg : skyline.get? i with _ | seg
  · simp only [hg] at h
    exact Option.noConfusion h
  · simp only [hg] at h
    split at h
    · simp at h
    · split at h
      · simp at h
      · have hl := check_fit_loop_spec (skyline.drop i) iw seg.y y h
        exact ⟨seg, rfl, by omega, hl.1, hl.2 (by omega)⟩

/-- Python's first-minimum fold stays among its inputs. -/
theorem min_by_score_mem (c : SkylineCandidate) :
    ∀ l, SkylineAlgorithm.min_by_score c l = c ∨ SkylineAlgorithm.min_by_score c l ∈ l
  | [] => Or.inl rfl
  | d :: rest => by
    simp only [SkylineAlgorithm.min_by_score]
    rcases min_by_score_mem (if d.score < c.score then d else c) rest with h | h
    · rw [h]
      split
      · exact Or.inr (List.mem_cons_self _ _)
      · exact Or.inl rfl
    · exact Or.inr (List.mem_cons_of_mem _ h)

/-- Python's first-maximum fold stays among its inputs. -/
theorem max_by_score_mem (c : SkylineCandidate) :
    ∀ l, SkylineAlgorithm.max_by_score c l = c ∨ SkylineAlgorithm.max_by_score c l ∈ l
  | [] => Or.inl rfl
  | d :: rest => by
    simp only [SkylineAlgorithm.max_by_score]
    rcases max_by_score_mem (if c.score < d.score then d else c) rest with h | h
    · rw [h]
      split
      · exact Or.inr (List.mem_cons_self _ _)
      · exact Or.inl rfl
    · exact Or.inr (List.mem_cons_of_mem _ h)

/-- The candidate chosen by `_find_best_score` was enumerated. -/
theorem find_best_score_mem {rotation : Bool} {heuristic : BinHeuristicType} {bin : Bin}
    {skyline : List SkylineSegment} {item : Item} {best : SkylineCandidate}
    (h : SkylineAlgorithm.find_best_score rotation heuristic bin skyline item = some best) :
    best ∈ SkylineAlgorithm.candidates rotation heuristic bin skyline item := by
  simp only [SkylineAlgorithm.find_best_score] at h
  rcases hc : SkylineAlgorithm.candidates rotation heuristic bin skyline item with _ | ⟨c, rest⟩
  · simp only [hc] at h
    exact Option.noConfusion h
  · simp only [hc] at h
    split at h
    · obtain rfl := Option.some.inj h.symm
      rcases min_by_score_mem c rest with h' | h'
      · rw [h']
        exact List.mem_cons_self _ _
      · exact List.mem_cons_of_mem _ h'
    · obtain rfl := Option.some.inj h.symm
      rcases max_by_score_mem c rest with h' | h'
      · rw [h']
        exact List.mem_cons_self _ _
      · exact List.mem_cons_of_mem _ h'

/-- Every enumerated candidate records a segment of the skyline together
with a successful fit above it in the candidate's orientation. -/
theorem candidates_spec {rotation : Bool} {heuristic : BinHeuristicType} {bin : Bin}
    {skyline : List SkylineSegment} {item : Item} {cand : SkylineCandidate}
    (h : cand ∈ SkylineAlgorithm.candidates rotation heuristic bin skyline item) :
    ∃ i seg, skyline.get? i = some seg ∧ cand.segment = seg ∧
      SkylineAlgorithm.check_fit bin skyline
        (if cand.rotated = true then item.height else item.width)
        (if cand.rotated = true then item.width else item.height) i = some cand.y := by
  simp only [SkylineAlgorithm.candidates, List.mem_flatMap] at h
  obtain ⟨i, hi, hmem⟩ := h
  have hlt : i < skyline.length := List.mem_range.1 hi
  obtain ⟨seg, hseg⟩ : ∃ seg, skyline.get? i = some seg :=
    ⟨skyline.get ⟨i, hlt⟩, List.get?_eq_some.2 ⟨hlt, rfl⟩⟩
  rw [hseg] at hmem
  simp only [Option.getD_some] at hmem
  rcases List.mem_append.1 hmem with hm | hm
  · rcases hcf : SkylineAlgorithm.check_fit bin skyline item.width item.height i with _ | y
    · rw [hcf] at hm
      simp at hm
    · rw [hcf] at hm
      simp only [List.mem_singleton] at hm
      subst hm
      exact ⟨i, seg, hseg, rfl, by simpa using hcf⟩
  · cases hrot : rotation
    · rw [hrot] at hm
      simp at hm
    · rw [hrot] at hm
      simp only [if_true] at hm
      rcases hcf : SkylineAlgorithm.check_fit bin skyline item.height item.width i with _ | y
      · rw [hcf] at hm
        simp at hm
      · rw [hcf] at hm
        simp only [List.mem_singleton] at hm
        subst hm
        exact ⟨i, seg, hseg, rfl, by simpa using hcf⟩

/-- Stable segment insertion permutes to a plain cons. -/
theorem seg_insert_perm (a : SkylineSegment) :
    ∀ l, List.Perm (SkylineAlgorithm.seg_insert a l) (a :: l)
  | [] => List.Perm.refl _
  | b :: l => by
    simp only [SkylineAlgorithm.seg_insert]
    split
    · exact List.Perm.refl _
    · exact ((seg_insert_perm a l).cons b).trans (List.Perm.swap a b l)

/-- The segment sort is a permutation. -/
theorem seg_sort_perm : ∀ l, List.Perm (SkylineAlgorithm.seg_sort l) l
  | [] => List.Perm.refl _
  | a :: l => (seg_insert_perm a _).trans ((seg_sort_perm l).cons a)

/-- Clipping keeps segment coordinates non-negative. -/
theorem clip_segment_nonneg {seg : SkylineSegment} {item : Item} {s : SkylineSegment}
    (hseg : 0 ≤ seg.x ∧ 0 ≤ seg.y) (hx : 0 ≤ item.x + item.width)
    (hmem : s ∈ SkylineAlgorithm.clip_segment seg item) : 0 ≤ s.x ∧ 0 ≤ s.y := by
  simp only [SkylineAlgorithm.clip_segment] at hmem
  split at hmem
  · simp only [List.mem_singleton] at hmem
    subst hmem
    exact hseg
  · split at hmem
    · simp at hmem
    · split at hmem
      · simp only [List.mem_singleton] at hmem
        subst hmem
        exact hseg
      · split at hmem
        · simp only [List.mem_singleton] at hmem
          subst hmem
          exact ⟨hx, hseg.2⟩
        · split at hmem
          · simp only [List.mem_cons, List.not_mem_nil, or_false] at hmem
            rcases hmem with hmem | hmem <;> subst hmem
            · exact hseg
            · exact ⟨hx, hseg.2⟩
          · simp at hmem

/-- The merge loop keeps segment coordinates non-negative. -/
theorem merge_loop_nonneg :
    ∀ (rest acc : List SkylineSegment),
      (∀ s ∈ acc, 0 ≤ s.x ∧ 0 ≤ s.y) → (∀ s ∈ rest, 0 ≤ s.x ∧ 0 ≤ s.y) →
      ∀ s ∈ SkylineAlgorithm.merge_loop acc rest, 0 ≤ s.x ∧ 0 ≤ s.y
  | [], acc, hacc, _, s, hs => hacc s hs
  | seg :: rest, acc, hacc, hrest, s, hs => by
    simp only [SkylineAlgorithm.merge_loop] at hs
    have hlast : 0 ≤ (acc.getLast?.getD ⟨0, 0, 0⟩).x ∧
        0 ≤ (acc.getLast?.getD ⟨0, 0, 0⟩).y := by
      rcases hgl : acc.getLast? with _ | last
      · simp
      · simp only [Option.getD_some]
        refine hacc last ?_
        have hm : last ∈ acc.getLast? := Option.mem_def.2 hgl
        obtain ⟨hne, heq⟩ := List.mem_getLast?_eq_getLast hm
        rw [heq]
        exact List.getLast_mem hne
    split at hs
    · refine merge_loop_nonneg rest _ ?_ (fun t ht => hrest t (List.mem_cons_of_mem _ ht))
        s hs
      intro t ht
      rcases List.mem_append.1 ht with ht | ht
      · exact hacc t (List.mem_of_mem_erase ht)
      · simp only [List.mem_singleton] at ht
        subst ht
        exact hlast
    · refine merge_loop_nonneg rest _ ?_ (fun t ht => hrest t (List.mem_cons_of_mem _ ht))
        s hs
      intro t ht
      rcases List.mem_append.1 ht with ht | ht
      · exact hacc t ht
      · simp only [List.mem_singleton] at ht
        rw [ht]
        exact hrest _ (List.mem_cons_self _ _)

/-- `_merge_segments` keeps segment coordinates non-negative. -/
theorem merge_segments_nonneg {skyline : List SkylineSegment}
    (h : ∀ s ∈ skyline, 0 ≤ s.x ∧ 0 ≤ s.y) :
    ∀ s ∈ SkylineAlgorithm.merge_segments skyline, 0 ≤ s.x ∧ 0 ≤ s.y := by
  intro s hs
  rcases skyline with _ | ⟨first, rest⟩
  · simp [SkylineAlgorithm.merge_segments] at hs
  · simp only [SkylineAlgorithm.merge_segments] at hs
    have hs' := (seg_sort_perm _).mem_iff.1 hs
    refine merge_loop_nonneg rest [first] ?_ ?_ s hs'
    · intro t ht
      simp only [List.mem_singleton] at ht
      rw [ht]
      exact h _ (List.mem_cons_self _ _)
    · intro t ht
      exact h t (List.mem_cons_of_mem _ ht)

/-- `_update_segment` keeps segment coordinates non-negative. -/
theorem update_segment_nonneg {bin : Bin} {skyline : List SkylineSegment}
    {segment : SkylineSegment} {item : Item}
    (hsky : ∀ s ∈ skyline, 0 ≤ s.x ∧ 0 ≤ s.y)
    (hseg : 0 ≤ segment.x) (hx : 0 ≤ item.x + item.width)
    (hy : 0 ≤ item.y + item.height) :
    ∀ s ∈ SkylineAlgorithm.update_segment bin skyline segment item,
      0 ≤ s.x ∧ 0 ≤ s.y := by
  intro s hs
  simp only [SkylineAlgorithm.update_segment] at hs
  have hclip : ∀ t ∈ skyline.flatMap (fun seg => SkylineAlgorithm.clip_segment seg item),
      0 ≤ t.x ∧ 0 ≤ t.y := by
    intro t ht
    obtain ⟨u, hu, ht⟩ := List.mem_flatMap.1 ht
    exact clip_segment_nonneg (hsky u hu) hx ht
  have hsorted : ∀ t ∈ (if (skyline.flatMap
        (fun seg => SkylineAlgorithm.clip_segment seg item)).length ≠ 0 then
        SkylineAlgorithm.seg_sort (skyline.flatMap
          (fun seg => SkylineAlgorithm.clip_segment seg item))
      else skyline.flatMap (fun seg => SkylineAlgorithm.clip_segment seg item)),
      0 ≤ t.x ∧ 0 ≤ t.y := by
    intro t ht
    split at ht
    · exact hclip t ((seg_sort_perm _).mem_iff.1 ht)
    · exact hclip t ht
  split at hs
  · have hs' := (seg_sort_perm _).mem_iff.1 hs
    rcases List.mem_append.1 hs' with hm | hm
    · exact hsorted s hm
    · simp only [List.mem_singleton] at hm
      subst hm
      exact ⟨hseg, hy⟩
  · exact hsorted s hs

/-- `SkylineAlgorithm.pack_item` keeps every stored per-bin state sound
and every item of the touched bin inside the bin bounds. -/
theorem skyline_pack_item_sound {rotation : Bool} {heuristic : BinHeuristicType}
    {bin_skyline : Nat → Option SkylineBinState} {bin : Bin} {item : Item}
    {ok : Bool} {map' : Nat → Option SkylineBinState} {bin' : Bin} {item' : Item}
    (h : SkylineAlgorithm.pack_item rotation heuristic bin_skyline bin item =
      (ok, map', bin', item'))
    (hstate : ∀ k st, bin_skyline k = some st → SkylineStateSound st)
    (hbin : ∀ it ∈ bin.items, ItemInBounds bin.width bin.height it)
    (hw : 0 < item.width) (hh : 0 < item.height) :
    (∀ k st, map' k = some st → SkylineStateSound st) ∧
    (∀ it ∈ bin'.items, ItemInBounds bin.width bin.height it) ∧
    bin'.width = bin.width ∧ bin'.height = bin.height := by
  simp only [SkylineAlgorithm.pack_item] at h
  set st₀ := (match bin_skyline bin.id with
    | some st => st
    | none => SkylineAlgorithm.initialize_bin bin) with hst₀def
  have hsound₀ : SkylineStateSound st₀ := by
    rcases hbg : bin_skyline bin.id with _ | st
    · simp only [hst₀def, hbg]
      intro s hs
      simp only [SkylineAlgorithm.initialize_bin, List.mem_singleton] at hs
      rw [hs]
      exact ⟨le_refl 0, le_refl 0⟩
    · simp only [hst₀def, hbg]
      exact hstate _ _ hbg
  rcases hf : SkylineAlgorithm.find_best_score rotation heuristic bin st₀.skyline item with
    _ | best
  · simp only [hf] at h
    cases h
    refine ⟨?_, hbin, rfl, rfl⟩
    intro k st hk
    by_cases hkid : k = bin.id
    · subst hkid
      rw [mapSet_self] at hk
      exact Option.some.inj hk ▸ hsound₀
    · rw [mapSet_ne _ _ hkid] at hk
      exact hstate _ _ hk
  · have hcand := find_best_score_mem hf
    obtain ⟨i, seg, hgi, hsegeq, hcf⟩ := candidates_spec hcand
    have hsegnn : 0 ≤ seg.x ∧ 0 ≤ seg.y := hsound₀ seg (List.get?_mem hgi)
    obtain ⟨seg₂, hgi₂, hxw, hyy, hyh⟩ := check_fit_spec hcf
    have hseg₂ : seg₂ = seg := by
      rw [hgi] at hgi₂
      exact (Option.some.inj hgi₂).symm
    subst hseg₂
    simp only [hf] at h
    cases h
    have heffw : (if best.rotated = true then item.rotate else item).width =
        (if best.rotated = true then item.height else item.width) := by
      cases best.rotated <;> simp [Item.rotate]
    have heffh : (if best.rotated = true then item.rotate else item).height =
        (if best.rotated = true then item.width else item.height) := by
      cases best.rotated <;> simp [Item.rotate]
    have hwpos : 0 < (if best.rotated = true then item.rotate else item).width := by
      cases best.rotated <;> simp [Item.rotate] <;> omega
    have hhpos : 0 < (if best.rotated = true then item.rotate else item).height := by
      cases best.rotated <;> simp [Item.rotate] <;> omega
    have hbounds : ItemInBounds bin.width bin.height
        { (if best.rotated = true then item.rotate else item) with
          x := best.segment.x, y := best.y } := by
      unfold ItemInBounds
      dsimp only
      rw [hsegeq, heffw, heffh]
      refine ⟨hsegnn.1, by omega, ?_, ?_⟩
      · exact hxw
      · exact hyh
    refine ⟨?_, ?_, rfl, rfl⟩
    · intro k st hk
      by_cases hkid : k = bin.id
      · subst hkid
        rw [mapSet_self] at hk
        obtain rfl := Option.some.inj hk
        intro s hs
        dsimp only at hs
        refine merge_segments_nonneg (update_segment_nonneg hsound₀ ?_ ?_ ?_) s hs
        · rw [hsegeq]
          exact hsegnn.1
        · dsimp only
          rw [hsegeq, heffw]
          have := hsegnn.1
          cases best.rotated <;> simp at hxw ⊢ <;> omega
        · dsimp only
          rw [heffh]
          have := hsegnn.2
          cases best.rotated <;> simp at hyh ⊢ <;> omega
      · rw [mapSet_ne _ _ hkid] at hk
        exact hstate _ _ hk
    · intro it hit
      simp only [List.mem_append, List.mem_singleton] at hit
      rcases hit with hit | hit
      · exact hbin _ hit
      · rw [hit]
        exact hbounds

/-- The index returned by the shelf bin-search loop is within range. -/
theorem shelf_search_bins_lt (rotation : Bool) (heuristic : BinHeuristicType)
    (bin_shelves : Nat → Option ShelfBinState) :
    ∀ (bins : List Bin) (item : Item) (i : Nat) (best : Option Nat) (sc : ℚ),
      (∀ j, best = some j → j < i) →
      ∀ j, ShelfAlgorithm.search_bins rotation heuristic bin_shelves bins item i best sc =
          some j → j < i + bins.length
  | [], _, i, best, _, hb, j, h => by
    have := hb j h
    simpa using this
  | bin :: rest, item, i, best, sc, hb, j, h => by
    simp only [ShelfAlgorithm.search_bins] at h
    rcases he : ShelfAlgorithm.evaluate_bin rotation heuristic bin_shelves bin item with
      ⟨score, item₂⟩
    rw [he] at h
    dsimp only at h
    set best₂ := if sc < score then (some i, score) else (best, sc) with hb₂
    have hbest₂ : ∀ j, best₂.1 = some j → j < i + 1 := by
      intro j hj
      rw [hb₂] at hj
      split at hj
      · simp at hj
        omega
      · have := hb j hj
        omega
    split at h
    · have := hbest₂ j h
      simp only [List.length_cons]
      omega
    · have := shelf_search_bins_lt rotation heuristic bin_shelves rest item₂ (i + 1)
        best₂.1 best₂.2 hbest₂ j h
      simp only [List.length_cons]
      omega

/-- The index returned by the skyline bin-search loop is within range. -/
theorem skyline_search_bins_lt (rotation : Bool) (heuristic : BinHeuristicType)
    (bin_skyline : Nat → Option SkylineBinState) :
    ∀ (bins : List Bin) (item : Item) (i : Nat) (best : Option Nat) (sc : ℚ),
      (∀ j, best = some j → j < i) →
      ∀ j, SkylineAlgorithm.search_bins rotation heuristic bin_skyline bins item i best sc =
          some j → j < i + bins.length
  | [], _, i, best, _, hb, j, h => by
    have := hb j h
    simpa using this
  | bin :: rest, item, i, best, sc, hb, j, h => by
    simp only [SkylineAlgorithm.search_bins] at h
    rcases he : SkylineAlgorithm.evaluate_bin rotation heuristic bin_skyline bin item with
      _ | score
    · rw [he] at h
      have := skyline_search_bins_lt rotation heuristic bin_skyline rest item (i + 1)
        best sc (fun j hj => by have := hb j hj; omega) j h
      simp only [List.length_cons]
      omega
    · rw [he] at h
      dsimp only at h
      set best₂ := if sc < score then (some i, score) else (best, sc) with hb₂
      have hbest₂ : ∀ j, best₂.1 = some j → j < i + 1 := by
        intro j hj
        rw [hb₂] at hj
        split at hj
        · simp at hj
          omega
        · have := hb j hj
          omega
      have := skyline_search_bins_lt rotation heuristic bin_skyline rest item (i + 1)
        best₂.1 best₂.2 hbest₂ j h
      simp only [List.length_cons]
      omega

/-- The bin index chosen by the dispatched `find_best_bin` is valid. -/
theorem find_best_bin_lt {alg : PackingAlgorithmState} {rotation : Bool}
    {heuristic : BinHeuristicType} {bins : List Bin} {item : Item} {i : Nat}
    (h : alg.find_best_bin rotation heuristic bins item = some i) : i < bins.length := by
  cases alg
  case shelf bin_shelves =>
    simp only [PackingAlgorithmState.find_best_bin, ShelfAlgorithm.find_best_bin] at h
    have := shelf_search_bins_lt rotation heuristic bin_shelves bins item 0 none 0
      (by simp) i h
    omega
  case skyline bin_skyline =>
    simp only [PackingAlgorithmState.find_best_bin, SkylineAlgorithm.find_best_bin] at h
    have := skyline_search_bins_lt rotation heuristic bin_skyline bins item 0 none 0
      (by simp) i h
    omega

/-- Dispatched `pack_item` soundness over both constructible engines. -/
theorem pack_item_sound_dispatch {alg : PackingAlgorithmState} {rotation : Bool}
    {heuristic : BinHeuristicType} {bin : Bin} {item : Item}
    {ok : Bool} {alg' : PackingAlgorithmState} {bin' : Bin} {item' : Item}
    (h : alg.pack_item rotation heuristic bin item = (ok, alg', bin', item'))
    (hstate : AlgStateSound bin.width bin.height alg)
    (hbin : ∀ it ∈ bin.items, ItemInBounds bin.width bin.height it)
    (hw : 0 < item.width) (hh : 0 < item.height)
    (hbw : 0 ≤ bin.width) (hbh : 0 ≤ bin.height) :
    AlgStateSound bin.width bin.height alg' ∧
    (∀ it ∈ bin'.items, ItemInBounds bin.width bin.height it) ∧
    bin'.width = bin.width ∧ bin'.height = bin.height := by
  cases alg
  case shelf bin_shelves =>
    simp only [PackingAlgorithmState.pack_item] at h
    rcases hp : ShelfAlgorithm.pack_item rotation heuristic bin_shelves bin item with
      ⟨ok₂, m₂, b₂, i₂⟩
    simp only [hp] at h
    cases h
    have := shelf_pack_item_sound hp hstate hbin hw hh hbw hbh
    exact ⟨this.1, this.2⟩
  case skyline bin_skyline =>
    simp only [PackingAlgorithmState.pack_item] at h
    rcases hp : SkylineAlgorithm.pack_item rotation heuristic bin_skyline bin item with
      ⟨ok₂, m₂, b₂, i₂⟩
    simp only [hp] at h
    cases h
    have := skyline_pack_item_sound hp hstate hbin hw hh
    exact ⟨this.1, this.2⟩

/-- One manager step preserves soundness; the configuration fields are
untouched. -/
theorem step_sound {m : BinManager} {item : Item}
    (hm : ManagerSound m) (hw : 0 < item.width) (hh : 0 < item.height)
    (hbw : 0 ≤ m.bin_width) (hbh : 0 ≤ m.bin_height) :
    ManagerSound (m.step item).1 ∧
    (m.step item).1.bin_width = m.bin_width ∧
    (m.step item).1.bin_height = m.bin_height := by
  obtain ⟨hbins, halgst⟩ := hm
  rcases hs : m.step item with ⟨m', ok⟩
  simp only
  simp only [BinManager.step] at hs
  rcases hfind : m.algorithm.find_best_bin m.rotation m.heuristic m.bins item with _ | i
  · rcases hp : m.algorithm.pack_item m.rotation m.heuristic
        { width := m.bin_width, height := m.bin_height, items := [], id := m.next_bin_id }
        item with ⟨ok₂, alg', bin', item'⟩
    simp only [hfind, hp] at hs
    cases hs
    have hps := pack_item_sound_dispatch hp halgst (by intro it hit; cases hit) hw hh hbw hbh
    refine ⟨⟨?_, hps.1⟩, rfl, rfl⟩
    intro b hb
    rcases List.mem_append.1 hb with hb | hb
    · exact hbins b hb
    · simp only [List.mem_singleton] at hb
      subst hb
      exact ⟨hps.2.2.1, hps.2.2.2, hps.2.1⟩
  · simp only [hfind] at hs
    rcases hget : m.bins.get? i with _ | bin
    · simp only [hget] at hs
      cases hs
      exact ⟨⟨hbins, halgst⟩, rfl, rfl⟩
    · have hbmem : bin ∈ m.bins := List.get?_mem hget
      obtain ⟨hbw', hbh', hbitems⟩ := hbins bin hbmem
      rcases hp : m.algorithm.pack_item m.rotation m.heuristic bin item with
        ⟨ok₂, alg', bin', item'⟩
      simp only [hget, hp] at hs
      cases hs
      have hps := pack_item_sound_dispatch hp (by rw [hbw', hbh']; exact halgst)
        (by rw [← hbw', ← hbh'] at hbitems; exact hbitems) hw hh
        (by rw [hbw']; exact hbw) (by rw [hbh']; exact hbh)
      refine ⟨⟨?_, ?_⟩, rfl, rfl⟩
      · intro b hb
        rcases List.mem_or_eq_of_mem_set hb with hb | hb
        · exact hbins b hb
        · subst hb
          refine ⟨by rw [hps.2.2.1, hbw'], by rw [hps.2.2.2, hbh'], ?_⟩
          intro it hit
          have := hps.2.1 it hit
          rw [hbw', hbh'] at this
          exact this
      · rw [← hbw', ← hbh']
        exact hps.1

/-- The packing fold preserves manager soundness. -/
theorem foldl_step_sound :
    ∀ (items : List Item) (m : BinManager),
      ManagerSound m → 0 ≤ m.bin_width → 0 ≤ m.bin_height →
      (∀ it ∈ items, 0 < it.width ∧ 0 < it.height) →
      ManagerSound (items.foldl (fun m it => (m.step it).1) m)
  | [], _, hm, _, _, _ => hm
  | it :: rest, m, hm, hbw, hbh, hpos => by
    simp only [List.foldl_cons]
    have hst := step_sound hm (hpos it (List.mem_cons_self _ _)).1
      (hpos it (List.mem_cons_self _ _)).2 hbw hbh
    exact foldl_step_sound rest _ hst.1 (hst.2.1.symm ▸ hbw) (hst.2.2.symm ▸ hbh)
      (fun t ht => hpos t (List.mem_cons_of_mem _ ht))

/-- C1: for every constructible strategy (only shelf and skyline pass the
constructor), every heuristic, rotation flag and sort key, after
`execute` returns every placed item of every returned bin satisfies
0 ≤ x, 0 ≤ y, x + width ≤ bin.width and y + height ≤ bin.height. -/
theorem execute_containment
    (bin_width bin_height : Int) (algorithm : BinPackingAlgorithmType)
    (heuristic : BinHeuristicType) (rotation : Bool) (sorting_strategy : SortStrategy)
    (m : BinManager) (items : List Item)
    (hnew : BinManager.new bin_width bin_height algorithm heuristic rotation
      sorting_strategy = .ok m)
    (hbw : 0 ≤ bin_width) (hbh : 0 ≤ bin_height)
    (hpos : ∀ it ∈ items, 0 < it.width ∧ 0 < it.height) :
    ∀ b ∈ (m.execute items).bins, ∀ it ∈ b.items,
      0 ≤ it.x ∧ 0 ≤ it.y ∧ it.x + it.width ≤ b.width ∧
        it.y + it.height ≤ b.height := by
  have hm : m.bins = [] ∧ m.bin_width = bin_width ∧ m.bin_height = bin_height ∧
      ManagerSound m := by
    cases algorithm
    case shelf =>
      simp only [BinManager.new, BinManager.initialize_algorithm] at hnew
      obtain rfl := Except.ok.inj hnew
      exact ⟨rfl, rfl, rfl, (fun b hb => absurd hb (List.not_mem_nil b)),
        (fun k st hk => Option.noConfusion hk)⟩
    case skyline =>
      simp only [BinManager.new, BinManager.initialize_algorithm] at hnew
      obtain rfl := Except.ok.inj hnew
      exact ⟨rfl, rfl, rfl, (fun b hb => absurd hb (List.not_mem_nil b)),
        (fun k st hk => Option.noConfusion hk)⟩
    case maxrects =>
      simp only [BinManager.new, BinManager.initialize_algorithm] at hnew
      exact Except.noConfusion hnew
    case guillotine =>
      simp only [BinManager.new, BinManager.initialize_algorithm] at hnew
      exact Except.noConfusion hnew
  obtain ⟨hbins0, hmw, hmh, hsound⟩ := hm
  have hpos' : ∀ it ∈ BinManager.sort_items m.sorting_strategy items,
      0 < it.width ∧ 0 < it.height := by
    intro it hit
    exact hpos it ((sort_items_perm _ _).mem_iff.1 hit)
  have hfinal : ManagerSound (m.execute items) := by
    rw [BinManager.execute]
    exact foldl_step_sound _ m hsound (hmw.symm ▸ hbw) (hmh.symm ▸ hbh) hpos'
  intro b hb it hit
  obtain ⟨hbwb, hbhb, hitems⟩ := hfinal.1 b hb
  have := hitems it hit
  rw [hbwb, hbhb]
  exact this

/-- Witness for C1: the item packed by the fresh 10×10 shelf manager sits
inside its bin. -/
theorem execute_containment_witness :
    0 ≤ (⟨5, 5, false, 0, 0, "a"⟩ : Item).x ∧ 0 ≤ (⟨5, 5, false, 0, 0, "a"⟩ : Item).y ∧
    (⟨5, 5, false, 0, 0, "a"⟩ : Item).x + (⟨5, 5, false, 0, 0, "a"⟩ : Item).width ≤
      c1bin.width ∧
    (⟨5, 5, false, 0, 0, "a"⟩ : Item).y + (⟨5, 5, false, 0, 0, "a"⟩ : Item).height ≤
      c1bin.height :=
  execute_containment 10 10 .shelf .first_fit false .NONE mgr10shelf
    [⟨5, 5, false, -1, -1, "a"⟩] rfl (by decide) (by decide)
    (by intro it hit; simp at hit; rw [hit]; exact ⟨by decide, by decide⟩)
    c1bin (by with_unfolding_all decide) ⟨5, 5, false, 0, 0, "a"⟩ (by decide)

/-- A covered interval is never reversed. -/
theorem cover_le {hi : Int} :
    ∀ (l : List SkylineSegment) (lo : Int), SkylineCover hi l lo → lo ≤ hi
  | [], lo, h => by
    simp only [SkylineCover] at h
    omega
  | s :: t, lo, h => by
    simp only [SkylineCover] at h
    have := cover_le t (lo + s.width) h.2.2
    omega

/-- Every member of a covering segment list lies inside the covered
interval and has positive width. -/
theorem cover_mem {hi : Int} :
    ∀ (l : List SkylineSegment) (lo : Int), SkylineCover hi l lo →
      ∀ m ∈ l, lo ≤ m.x ∧ 0 < m.width ∧ m.x + m.width ≤ hi
  | [], _, _, m, hm => absurd hm (List.not_mem_nil m)
  | s :: t, lo, h, m, hm => by
    simp only [SkylineCover] at h
    obtain ⟨hx, hw, hrest⟩ := h
    rcases List.mem_cons.1 hm with heq | hm
    · subst heq
      have := cover_le t (lo + m.width) hrest
      omega
    · have := cover_mem t (lo + s.width) hrest m hm
      omega

/-- Two covering lists of adjacent intervals concatenate to a covering
list. -/
theorem cover_append {hi mid : Int} :
    ∀ (l1 : List SkylineSegment) (lo : Int) (l2 : List SkylineSegment),
      SkylineCover mid l1 lo → SkylineCover hi l2 mid →
      SkylineCover hi (l1 ++ l2) lo
  | [], lo, l2, h1, h2 => by
    simp only [SkylineCover] at h1
    subst h1
    simpa using h2
  | s :: t, lo, l2, h1, h2 => by
    simp only [SkylineCover] at h1
    obtain ⟨hx, hw, hrest⟩ := h1
    simp only [List.cons_append, SkylineCover]
    exact ⟨hx, hw, cover_append t (lo + s.width) l2 hrest h2⟩

/-- A covering list is sorted under the `(x, y, width)` key order. -/
theorem cover_sorted {hi : Int} :
    ∀ (l : List SkylineSegment) (lo : Int), SkylineCover hi l lo →
      List.Pairwise SkylineSegment.le l
  | [], _, _ => List.Pairwise.nil
  | s :: t, lo, h => by
    simp only [SkylineCover] at h
    obtain ⟨hx, hw, hrest⟩ := h
    refine List.pairwise_cons.2 ⟨?_, cover_sorted t (lo + s.width) hrest⟩
    intro b hb
    have hmb := cover_mem t (lo + s.width) hrest b hb
    exact Or.inl (by omega)

/-- The key order on segments is total. -/
theorem seg_le_total (a b : SkylineSegment) :
    SkylineSegment.le a b ∨ SkylineSegment.le b a := by
  obtain ⟨ax, ay, aw⟩ := a
  obtain ⟨bx, bb, bw⟩ := b
  simp only [SkylineSegment.le]
  omega

/-- The key order on segments is transitive. -/
theorem seg_le_trans {a b c : SkylineSegment}
    (hab : SkylineSegment.le a b) (hbc : SkylineSegment.le b c) :
    SkylineSegment.le a c := by
  obtain ⟨ax, ay, aw⟩ := a
  obtain ⟨bx, bb, bw⟩ := b
  obtain ⟨cx, cy, cw⟩ := c
  simp only [SkylineSegment.le] at hab hbc ⊢
  omega

instance : IsAntisymm SkylineSegment SkylineSegment.le :=
  ⟨fun a b hab hba => by
    obtain ⟨ax, ay, aw⟩ := a
    obtain ⟨bx, bb, bw⟩ := b
    simp only [SkylineSegment.le] at hab hba
    simp only [SkylineSegment.mk.injEq]
    omega⟩

/-- Inserting into a sorted segment list keeps it sorted. -/
theorem seg_insert_sorted (a : SkylineSegment) :
    ∀ (l : List SkylineSegment), List.Pairwise SkylineSegment.le l →
      List.Pairwise SkylineSegment.le (SkylineAlgorithm.seg_insert a l)
  | [], _ => List.pairwise_cons.2 ⟨fun b hb => absurd hb (List.not_mem_nil b),
      List.Pairwise.nil⟩
  | b :: l, h => by
    obtain ⟨hb, hl⟩ := List.pairwise_cons.1 h
    simp only [SkylineAlgorithm.seg_insert]
    split
    · next hab =>
      refine List.pairwise_cons.2 ⟨?_, h⟩
      intro c hc
      rcases List.mem_cons.1 hc with rfl | hc
      · exact hab
      · exact seg_le_trans hab (hb c hc)
    · next hab =>
      have hba := (seg_le_total a b).resolve_left hab
      refine List.pairwise_cons.2 ⟨?_, seg_insert_sorted a l hl⟩
      intro c hc
      rcases List.mem_cons.1 ((seg_insert_perm a l).mem_iff.1 hc) with hc | hc
      · subst hc
        exact hba
      · exact hb c hc

/-- The segment sort produces a sorted list. -/
theorem seg_sort_sorted :
    ∀ (l : List SkylineSegment),
      List.Pairwise SkylineSegment.le (SkylineAlgorithm.seg_sort l)
  | [] => List.Pairwise.nil
  | a :: l => seg_insert_sorted a _ (seg_sort_sorted l)

/-- Sorting any permutation of a covering list returns that list: a
covering list is the unique sorted arrangement of its segments. -/
theorem seg_sort_eq_of_cover {hi lo : Int} {c l : List SkylineSegment}
    (hcov : SkylineCover hi c lo) (hp : List.Perm l c) :
    SkylineAlgorithm.seg_sort l = c :=
  List.eq_of_perm_of_sorted ((seg_sort_perm l).trans hp) (seg_sort_sorted l)
    (cover_sorted c lo hcov)

/-- Intro form for the empty cover. -/
theorem cover_nil {hi lo : Int} (h : lo = hi) :
    SkylineCover hi ([] : List SkylineSegment) lo := h

/-- Intro form for a cover headed by an explicit segment literal. -/
theorem cover_cons {hi lo x y w : Int} {rest : List SkylineSegment}
    (hx : x = lo) (hw : 0 < w) (h : SkylineCover hi rest (lo + w)) :
    SkylineCover hi (⟨x, y, w⟩ :: rest) lo := ⟨hx, hw, h⟩

/-- Clipping a skyline that covers `[lo, W)` against an item whose span
starts at or before `lo` leaves a skyline covering `[max lo b, W)` where
`b` is the item's right edge. -/
theorem clip_flatMap_after {W : Int} {item : Item} :
    ∀ (segs : List SkylineSegment) (lo : Int), SkylineCover W segs lo →
      item.x ≤ lo → 0 < item.width → item.x + item.width ≤ W →
      SkylineCover W (segs.flatMap fun s => SkylineAlgorithm.clip_segment s item)
        (max lo (item.x + item.width))
  | [], lo, hcov, ha, hw, hb => by
    simp only [SkylineCover] at hcov
    subst hcov
    simp only [List.flatMap_nil, SkylineCover]
    exact max_eq_left hb
  | s :: rest, lo, hcov, ha, hw, hb => by
    simp only [SkylineCover] at hcov
    obtain ⟨hsx, hsw, hrest⟩ := hcov
    simp only [List.flatMap_cons]
    by_cases hble : item.x + item.width ≤ lo
    · -- the item lies entirely at or left of the uncovered part
      have hrec := clip_flatMap_after rest (lo + s.width) hrest (by omega) hw (by omega)
      rw [max_eq_left (by omega)] at hrec
      rw [max_eq_left hble]
      by_cases hgt : item.x + item.width < lo
      · rw [show SkylineAlgorithm.clip_segment s item = [s] from by
          simp only [SkylineAlgorithm.clip_segment]
          rw [if_pos (by omega)]]
        simp only [List.cons_append, List.nil_append, SkylineCover]
        exact ⟨hsx, hsw, hrec⟩
      · -- the segment starts exactly at the item's right edge
        rw [show SkylineAlgorithm.clip_segment s item =
            [⟨item.x + item.width, s.y, s.x + s.width - (item.x + item.width)⟩] from by
          simp only [SkylineAlgorithm.clip_segment]
          rw [if_neg (by omega), if_neg (by omega), if_neg (by omega), if_pos (by omega)]]
        simp only [List.cons_append, List.nil_append]
        refine cover_cons (by omega) (by omega) ?_
        rw [show lo + (s.x + s.width - (item.x + item.width)) = lo + s.width from by omega]
        exact hrec
    · -- the segment overlaps the item's span
      by_cases heb : lo + s.width ≤ item.x + item.width
      · -- the segment ends inside the item: it is clipped away entirely
        have hrec := clip_flatMap_after rest (lo + s.width) hrest (by omega) hw hb
        rw [max_eq_right (by omega)] at hrec
        rw [max_eq_right (by omega)]
        rw [show SkylineAlgorithm.clip_segment s item = [] from by
          simp only [SkylineAlgorithm.clip_segment]
          rw [if_neg (by omega), if_pos (by omega)]]
        simpa using hrec
      · -- the segment sticks out past the item's right edge
        have hrec := clip_flatMap_after rest (lo + s.width) hrest (by omega) hw hb
        rw [max_eq_left (by omega)] at hrec
        rw [max_eq_right (by omega)]
        rw [show SkylineAlgorithm.clip_segment s item =
            [⟨item.x + item.width, s.y, s.x + s.width - (item.x + item.width)⟩] from by
          simp only [SkylineAlgorithm.clip_segment]
          rw [if_neg (by omega), if_neg (by omega), if_neg (by omega), if_pos (by omega)]]
        simp only [List.cons_append, List.nil_append]
        refine cover_cons (by omega) (by omega) ?_
        rw [show item.x + item.width + (s.x + s.width - (item.x + item.width)) =
          lo + s.width from by omega]
        exact hrec

/-- Clipping a skyline that covers `[lo, W)` against an item placed to
the right of `lo` splits it into a part covering `[lo, item.x)` and a
part covering `[item.x + item.width, W)`. -/
theorem clip_flatMap_split {W : Int} {item : Item} :
    ∀ (segs : List SkylineSegment) (lo : Int), SkylineCover W segs lo →
      lo ≤ item.x → 0 < item.width → item.x + item.width ≤ W →
      ∃ l1 l2,
        (segs.flatMap fun s => SkylineAlgorithm.clip_segment s item) = l1 ++ l2 ∧
        SkylineCover item.x l1 lo ∧ SkylineCover W l2 (item.x + item.width)
  | [], lo, hcov, ha, hw, hb => by
    simp only [SkylineCover] at hcov
    exact absurd hcov (by omega)
  | s :: rest, lo, hcov, ha, hw, hb => by
    simp only [SkylineCover] at hcov
    obtain ⟨hsx, hsw, hrest⟩ := hcov
    simp only [List.flatMap_cons]
    by_cases hea : lo + s.width ≤ item.x
    · -- the segment lies entirely left of the item
      obtain ⟨l1, l2, heq, hc1, hc2⟩ :=
        clip_flatMap_split rest (lo + s.width) hrest hea hw hb
      by_cases hlt : lo + s.width < item.x
      · rw [show SkylineAlgorithm.clip_segment s item = [s] from by
          simp only [SkylineAlgorithm.clip_segment]
          rw [if_pos (by omega)]]
        refine ⟨s :: l1, l2, ?_, ?_, hc2⟩
        · rw [List.singleton_append, List.cons_append, heq]
        · simp only [SkylineCover]
          exact ⟨hsx, hsw, hc1⟩
      · -- the segment ends exactly at the item's left edge
        rw [show SkylineAlgorithm.clip_segment s item =
            [⟨s.x, s.y, item.x - s.x⟩] from by
          simp only [SkylineAlgorithm.clip_segment]
          rw [if_neg (by omega), if_neg (by omega), if_pos (by omega)]]
        refine ⟨⟨s.x, s.y, item.x - s.x⟩ :: l1, l2, ?_, ?_, hc2⟩
        · rw [List.singleton_append, List.cons_append, heq]
        · refine cover_cons (by omega) (by omega) ?_
          rw [show lo + (item.x - s.x) = lo + s.width from by omega]
          exact hc1
    · -- the segment reaches into the item's span
      by_cases heb : lo + s.width ≤ item.x + item.width
      · -- the segment ends inside the item
        have hrec := clip_flatMap_after rest (lo + s.width) hrest (by omega) hw hb
        rw [max_eq_right (by omega)] at hrec
        by_cases hla : lo < item.x
        · rw [show SkylineAlgorithm.clip_segment s item =
              [⟨s.x, s.y, item.x - s.x⟩] from by
            simp only [SkylineAlgorithm.clip_segment]
            rw [if_neg (by omega), if_neg (by omega), if_pos (by omega)]]
          refine ⟨[⟨s.x, s.y, item.x - s.x⟩],
            rest.flatMap fun u => SkylineAlgorithm.clip_segment u item, rfl, ?_, hrec⟩
          exact cover_cons (by omega) (by omega) (cover_nil (by omega))
        · rw [show SkylineAlgorithm.clip_segment s item = [] from by
            simp only [SkylineAlgorithm.clip_segment]
            rw [if_neg (by omega), if_pos (by omega)]]
          refine ⟨[], rest.flatMap fun u => SkylineAlgorithm.clip_segment u item,
            rfl, ?_, hrec⟩
          exact cover_nil (by omega)
      · -- the segment spans past the item's right edge
        have hrec := clip_flatMap_after rest (lo + s.width) hrest (by omega) hw hb
        rw [max_eq_left (by omega)] at hrec
        by_cases hla : lo < item.x
        · rw [show SkylineAlgorithm.clip_segment s item =
              [⟨s.x, s.y, item.x - s.x⟩,
               ⟨item.x + item.width, s.y, s.x + s.width - (item.x + item.width)⟩] from by
            simp only [SkylineAlgorithm.clip_segment]
            rw [if_neg (by omega), if_neg (by omega), if_neg (by omega),
              if_neg (by omega), if_pos (by omega)]]
          refine ⟨[⟨s.x, s.y, item.x - s.x⟩],
            ⟨item.x + item.width, s.y, s.x + s.width - (item.x + item.width)⟩ ::
              (rest.flatMap fun u => SkylineAlgorithm.clip_segment u item),
            rfl, ?_, ?_⟩
          · exact cover_cons (by omega) (by omega) (cover_nil (by omega))
          · refine cover_cons (by omega) (by omega) ?_
            rw [show item.x + item.width + (s.x + s.width - (item.x + item.width)) =
              lo + s.width from by omega]
            exact hrec
        · rw [show SkylineAlgorithm.clip_segment s item =
              [⟨item.x + item.width, s.y, s.x + s.width - (item.x + item.width)⟩] from by
            simp only [SkylineAlgorithm.clip_segment]
            rw [if_neg (by omega), if_neg (by omega), if_neg (by omega), if_pos (by omega)]]
          refine ⟨[],
            ⟨item.x + item.width, s.y, s.x + s.width - (item.x + item.width)⟩ ::
              (rest.flatMap fun u => SkylineAlgorithm.clip_segment u item),
            rfl, ?_, ?_⟩
          · exact cover_nil (by omega)
          · refine cover_cons (by omega) (by omega) ?_
            rw [show item.x + item.width + (s.x + s.width - (item.x + item.width)) =
              lo + s.width from by omega]
            exact hrec

/-- A nonempty covering list decomposes into a front cover and its last
segment. -/
theorem cover_decomp :
    ∀ (acc : List SkylineSegment) (lo pos : Int), acc ≠ [] →
      SkylineCover pos acc lo →
      ∃ front lst, acc = front ++ [lst] ∧ SkylineCover lst.x front lo ∧
        lst.x + lst.width = pos ∧ 0 < lst.width
  | [], _, _, hne, _ => absurd rfl hne
  | [s], lo, pos, _, h => by
    simp only [SkylineCover] at h
    obtain ⟨hx, hw, hrest⟩ := h
    exact ⟨[], s, rfl, by simp only [SkylineCover]; omega, by omega, hw⟩
  | s :: t :: u, lo, pos, _, h => by
    simp only [SkylineCover] at h
    obtain ⟨hx, hw, hrest⟩ := h
    obtain ⟨front, lst, heq, hcov, hpos, hwl⟩ :=
      cover_decomp (t :: u) (lo + s.width) pos (by simp) hrest
    refine ⟨s :: front, lst, by rw [List.cons_append, heq], ?_, hpos, hwl⟩
    simp only [SkylineCover]
    exact ⟨hx, hw, hcov⟩

/-- The last entry of a list ending in a singleton. -/
theorem getLast_app_single {α : Type} (l : List α) (a : α) :
    (l ++ [a]).getLast? = some a := by
  rw [List.getLast?_append_cons]
  rfl

/-- The merge loop of `_merge_segments` preserves exact coverage: if the
accumulator covers `[lo, pos)` and the remaining segments cover
`[pos, W)`, the merged result covers `[lo, W)`. -/
theorem merge_loop_cover {W : Int} :
    ∀ (rest acc : List SkylineSegment) (lo pos : Int), acc ≠ [] →
      SkylineCover pos acc lo → SkylineCover W rest pos →
      SkylineCover W (SkylineAlgorithm.merge_loop acc rest) lo
  | [], acc, lo, pos, _, hacc, hrest => by
    simp only [SkylineCover] at hrest
    subst hrest
    simpa only [SkylineAlgorithm.merge_loop] using hacc
  | seg :: rest, acc, lo, pos, hne, hacc, hrest => by
    simp only [SkylineCover] at hrest
    obtain ⟨hsx, hsw, hrest'⟩ := hrest
    obtain ⟨front, lst, rfl, hfront, hlpos, hlw⟩ := cover_decomp acc lo pos hne hacc
    simp only [SkylineAlgorithm.merge_loop, getLast_app_single, Option.getD_some]
    split
    · next hcond =>
      have hnm : lst ∉ front := by
        intro hmem
        have := cover_mem front lo hfront lst hmem
        omega
      rw [List.erase_append_right _ hnm, List.erase_cons_head, List.append_nil]
      refine merge_loop_cover rest
        (front ++ [⟨lst.x, lst.y, seg.x + seg.width - lst.x⟩]) lo (pos + seg.width)
        (by simp) ?_ hrest'
      refine cover_append front lo _ hfront ?_
      exact cover_cons rfl (by omega) (cover_nil (by omega))
    · next hcond =>
      refine merge_loop_cover rest (front ++ [lst] ++ [seg]) lo (pos + seg.width)
        (by simp) ?_ hrest'
      refine cover_append (front ++ [lst]) lo _ hacc ?_
      exact ⟨hsx, hsw, cover_nil rfl⟩

/-- `_merge_segments` preserves exact coverage. -/
theorem merge_segments_cover {W lo : Int} {skyline : List SkylineSegment}
    (h : SkylineCover W skyline lo) :
    SkylineCover W (SkylineAlgorithm.merge_segments skyline) lo := by
  obtain _ | ⟨first, rest⟩ := skyline
  · exact h
  · simp only [SkylineCover] at h
    obtain ⟨hx, hw, hrest⟩ := h
    simp only [SkylineAlgorithm.merge_segments]
    have hml := merge_loop_cover rest [first] lo (lo + first.width) (by simp)
      ⟨hx, hw, cover_nil rfl⟩ hrest
    rw [seg_sort_eq_of_cover hml (List.Perm.refl _)]
    exact hml

/-- `_update_segment` restores exact coverage when the placed item sits
strictly below the bin ceiling (so the roof segment is inserted). -/
theorem update_segment_cover {bin : Bin} {skyline : List SkylineSegment}
    {segment : SkylineSegment} {item : Item}
    (hcov : SkylineCover bin.width skyline 0)
    (hsegx : segment.x = item.x)
    (h0 : 0 ≤ item.x) (hw : 0 < item.width)
    (hxb : item.x + item.width ≤ bin.width)
    (htop : item.height + item.y < bin.height) :
    SkylineCover bin.width
      (SkylineAlgorithm.update_segment bin skyline segment item) 0 := by
  obtain ⟨l1, l2, hsplit, hc1, hc2⟩ := clip_flatMap_split skyline 0 hcov h0 hw hxb
  have hcross : ∀ u ∈ l1, ∀ v ∈ l2, SkylineSegment.le u v := by
    intro u hu v hv
    have h1 := cover_mem l1 0 hc1 u hu
    have h2 := cover_mem l2 (item.x + item.width) hc2 v hv
    exact Or.inl (by omega)
  have hsorted12 : List.Pairwise SkylineSegment.le (l1 ++ l2) :=
    List.pairwise_append.2
      ⟨cover_sorted l1 0 hc1, cover_sorted l2 (item.x + item.width) hc2, hcross⟩
  have hsortid : SkylineAlgorithm.seg_sort (l1 ++ l2) = l1 ++ l2 :=
    List.eq_of_perm_of_sorted (seg_sort_perm _) (seg_sort_sorted _) hsorted12
  have hcovc : SkylineCover bin.width
      (l1 ++ ⟨segment.x, item.y + item.height, item.width⟩ :: l2) 0 := by
    refine cover_append l1 0 _ hc1 ?_
    exact cover_cons (by omega) hw hc2
  have hperm : List.Perm
      ((l1 ++ l2) ++ [⟨segment.x, item.y + item.height, item.width⟩])
      (l1 ++ ⟨segment.x, item.y + item.height, item.width⟩ :: l2) := by
    rw [List.append_assoc]
    exact List.Perm.append_left l1 (List.perm_append_singleton _ l2)
  simp only [SkylineAlgorithm.update_segment]
  rw [hsplit]
  have hmid : (if (l1 ++ l2).length ≠ 0 then SkylineAlgorithm.seg_sort (l1 ++ l2)
      else l1 ++ l2) = l1 ++ l2 := by
    split
    · exact hsortid
    · rfl
  rw [hmid, if_pos htop]
  rw [seg_sort_eq_of_cover hcovc hperm]
  exact hcovc

/-- C4 counterexample: packing a 5×10 item into a fresh 10×10 bin with
the skyline engine succeeds, but because the item's top touches the bin
ceiling no roof segment is inserted: the stored skyline becomes the
single segment (5, 0, 5), which does not cover `[0, bin.width)` (the
interval `[0, 5)` is lost), refuting the "in particular also when the
placed item's top reaches the bin ceiling" part of the claim. -/
theorem skyline_ceiling_item_breaks_cover :
    (SkylineAlgorithm.pack_item false .first_fit (fun _ => none)
        ⟨10, 10, [], 0⟩ ⟨5, 10, false, -1, -1, "a"⟩).1 = true ∧
    (SkylineAlgorithm.pack_item false .first_fit (fun _ => none)
        ⟨10, 10, [], 0⟩ ⟨5, 10, false, -1, -1, "a"⟩).2.1 0 =
      some ⟨⟨0, 0, 10⟩, [⟨5, 0, 5⟩]⟩ ∧
    ¬ SkylineCover 10 [⟨5, 0, 5⟩] 0 :=
  ⟨by with_unfolding_all decide, by with_unfolding_all decide, by decide⟩

/-- C4 (amended): a successful `SkylineAlgorithm.pack_item` whose placed
item ends strictly below the bin ceiling preserves invariant I6 -- the
stored segment list stays sorted by `x`, contiguous with positive
widths, and covers exactly `[0, bin.width)` (the `SkylineCover`
predicate).  Without the below-ceiling proviso the invariant is refuted
by `skyline_ceiling_item_breaks_cover`. -/
theorem skyline_pack_preserves_cover
    {rotation : Bool} {heuristic : BinHeuristicType}
    {bin_skyline : Nat → Option SkylineBinState} {bin : Bin} {item : Item}
    {map' : Nat → Option SkylineBinState} {bin' : Bin} {item' : Item}
    (h : SkylineAlgorithm.pack_item rotation heuristic bin_skyline bin item =
      (true, map', bin', item'))
    (hcov : SkylineCover bin.width
      ((bin_skyline bin.id).getD (SkylineAlgorithm.initialize_bin bin)).skyline 0)
    (hw : 0 < item.width) (hh : 0 < item.height)
    (htop : item'.y + item'.height < bin.height) :
    ∀ st, map' bin.id = some st → SkylineCover bin.width st.skyline 0 := by
  simp only [SkylineAlgorithm.pack_item] at h
  set st₀ := (match bin_skyline bin.id with
    | some st => st
    | none => SkylineAlgorithm.initialize_bin bin) with hst₀def
  have hcov₀ : SkylineCover bin.width st₀.skyline 0 := by
    rcases hbg : bin_skyline bin.id with _ | stg
    · simp only [hst₀def, hbg]
      simp only [hbg, Option.getD_none] at hcov
      exact hcov
    · simp only [hst₀def, hbg]
      simp only [hbg, Option.getD_some] at hcov
      exact hcov
  rcases hf : SkylineAlgorithm.find_best_score rotation heuristic bin st₀.skyline item
    with _ | best
  · simp only [hf, Prod.mk.injEq] at h
    exact absurd h.1 Bool.false_ne_true
  · have hcand := find_best_score_mem hf
    obtain ⟨i, seg, hgi, hsegeq, hcf⟩ := candidates_spec hcand
    have hsegmem := cover_mem st₀.skyline 0 hcov₀ seg (List.get?_mem hgi)
    obtain ⟨seg₂, hgi₂, hxw, hyy, hyh⟩ := check_fit_spec hcf
    have hseg₂ : seg₂ = seg := by
      rw [hgi] at hgi₂
      exact (Option.some.inj hgi₂).symm
    subst hseg₂
    simp only [hf] at h
    cases h
    intro st hst
    rw [mapSet_self] at hst
    obtain rfl := Option.some.inj hst
    dsimp only
    have heffw : (if best.rotated = true then item.rotate else item).width =
        (if best.rotated = true then item.height else item.width) := by
      cases best.rotated <;> simp [Item.rotate]
    have hwpos : 0 < (if best.rotated = true then item.rotate else item).width := by
      cases best.rotated <;> simp [Item.rotate] <;> omega
    have htopc : best.y + (if best.rotated = true then item.rotate else item).height <
        bin.height := htop
    have h0c : (0 : Int) ≤ best.segment.x := by
      rw [hsegeq]
      exact hsegmem.1
    have hxbc : best.segment.x +
        (if best.rotated = true then item.rotate else item).width ≤ bin.width := by
      rw [hsegeq, heffw]
      exact hxw
    exact merge_segments_cover (update_segment_cover hcov₀ rfl h0c hwpos hxbc
      (show (if best.rotated = true then item.rotate else item).height + best.y <
        bin.height by omega))

/-- Witness for C4: packing a 5×5 item into a fresh 10×10 bin places it
at (0, 0) below the ceiling, and the resulting skyline
[(0, 5, 5), (5, 0, 5)] covers exactly `[0, 10)`. -/
theorem skyline_pack_preserves_cover_witness :
    (SkylineAlgorithm.pack_item false .first_fit (fun _ => none)
        ⟨10, 10, [], 0⟩ ⟨5, 5, false, -1, -1, "a"⟩).1 = true ∧
    (SkylineAlgorithm.pack_item false .first_fit (fun _ => none)
        ⟨10, 10, [], 0⟩ ⟨5, 5, false, -1, -1, "a"⟩).2.1 0 =
      some ⟨⟨0, 0, 10⟩, [⟨0, 5, 5⟩, ⟨5, 0, 5⟩]⟩ ∧
    SkylineCover 10 [⟨0, 5, 5⟩, ⟨5, 0, 5⟩] 0 := by
  have h1 : (SkylineAlgorithm.pack_item false .first_fit (fun _ => none)
      ⟨10, 10, [], 0⟩ ⟨5, 5, false, -1, -1, "a"⟩).1 = true := by
    with_unfolding_all decide
  have hmap : (SkylineAlgorithm.pack_item false .first_fit (fun _ => none)
      ⟨10, 10, [], 0⟩ ⟨5, 5, false, -1, -1, "a"⟩).2.1 0 =
      some ⟨⟨0, 0, 10⟩, [⟨0, 5, 5⟩, ⟨5, 0, 5⟩]⟩ := by
    with_unfolding_all decide
  have hEq : SkylineAlgorithm.pack_item false .first_fit (fun _ => none)
      ⟨10, 10, [], 0⟩ ⟨5, 5, false, -1, -1, "a"⟩ =
      (true,
        (SkylineAlgorithm.pack_item false .first_fit (fun _ => none)
          ⟨10, 10, [], 0⟩ ⟨5, 5, false, -1, -1, "a"⟩).2.1,
        (SkylineAlgorithm.pack_item false .first_fit (fun _ => none)
          ⟨10, 10, [], 0⟩ ⟨5, 5, false, -1, -1, "a"⟩).2.2.1,
        (SkylineAlgorithm.pack_item false .first_fit (fun _ => none)
          ⟨10, 10, [], 0⟩ ⟨5, 5, false, -1, -1, "a"⟩).2.2.2) := by
    rw [← h1]
  have hcl := skyline_pack_preserves_cover hEq
    (by with_unfolding_all decide) (by decide) (by decide)
    (by with_unfolding_all decide)
    ⟨⟨0, 0, 10⟩, [⟨0, 5, 5⟩, ⟨5, 0, 5⟩]⟩ hmap
  exact ⟨h1, hmap, hcl⟩

end PEAX
